import Mathlib

set_option maxHeartbeats 1000000

namespace Carbon

/-! Shallow embedding of `src/carbonpre.py`, the spreadsheet-interpretation and
entity-resolution core of the power-plant data merger tool.  Strings are
modelled as `List Char`; spreadsheet files are modelled as an opaque read
collaborator returning either a tabular frame or a failure, matching the way
the source treats `pd.read_excel`. -/

/-- Characters matched by the Python regex class `\s` (ASCII range: space, tab,
newline, carriage return, vertical tab, form feed).  Non-ASCII whitespace is
not modelled; it is erased to a space one stage earlier than in Python, which
yields the same normalized output. -/
def pyIsSpace (c : Char) : Bool :=
  c = ' ' || c = '\t' || c = '\n' || c = '\r' || c = '\x0b' || c = '\x0c'

/-- The character class `[A-Za-z0-9]` used by `normalize_name`'s punctuation
stripping regex (phrased on code points, as the regex engine sees them). -/
def isAlnumAscii (c : Char) : Bool :=
  (65 ≤ c.toNat && c.toNat ≤ 90) || (97 ≤ c.toNat && c.toNat ≤ 122) ||
    (48 ≤ c.toNat && c.toNat ≤ 57)

/-- The character class `[A-Za-z]` of the date patterns. -/
def isAsciiAlpha (c : Char) : Bool :=
  (65 ≤ c.toNat && c.toNat ≤ 90) || (97 ≤ c.toNat && c.toNat ≤ 122)

/-- The character class `\d` of the date patterns. -/
def isDigitB (c : Char) : Bool :=
  48 ≤ c.toNat && c.toNat ≤ 57

/-- Numeric value of a decimal digit character. -/
def digitVal (c : Char) : Nat :=
  c.toNat - 48

/-- The character class `\w` (`[A-Za-z0-9_]`) used for Python word boundaries. -/
def isWordChar (c : Char) : Bool :=
  isAlnumAscii c || c = '_'

/-- Fueled worker for `replaceList`; the fuel is an upper bound on the length
of the remaining input, so the function is structurally recursive and reduces
in the kernel. -/
def replaceFuel (pat rep : List Char) : Nat → List Char → List Char
  | 0, s => s
  | _ + 1, [] => []
  | fuel + 1, c :: cs =>
    if pat.isPrefixOf (c :: cs) then
      rep ++ replaceFuel pat rep fuel (List.drop pat.length (c :: cs))
    else
      c :: replaceFuel pat rep fuel cs

/-- Python `str.replace(pat, rep)`: replace every non-overlapping occurrence of
`pat`, scanning left to right.  The source only ever calls it with non-empty
patterns; an empty pattern is treated as a no-op here. -/
def replaceList (pat rep s : List Char) : List Char :=
  if pat = [] then s else replaceFuel pat rep s.length s

/-- Position of the first `')'` in the list occurring before any newline, if
any; this is how far the lazy regex `\(.*?\)` reaches from an opening paren. -/
def findClose : List Char → Option Nat
  | [] => none
  | c :: cs =>
    if c = ')' then some 0
    else if c = '\n' then none
    else (findClose cs).map (· + 1)

/-- Fueled worker for `stripParens` (fuel bounds the remaining input length). -/
def stripParensFuel : Nat → List Char → List Char
  | 0, s => s
  | _ + 1, [] => []
  | fuel + 1, c :: cs =>
    if c = '(' then
      match findClose cs with
      | some n => ' ' :: stripParensFuel fuel (cs.drop (n + 1))
      | none => c :: stripParensFuel fuel cs
    else
      c :: stripParensFuel fuel cs

/-- Python `re.sub(r"\(.*?\)", " ", s)`: each parenthesized group (lazily
matched, not spanning a newline) is replaced by a single space. -/
def stripParens (s : List Char) : List Char :=
  stripParensFuel s.length s

/-- Python `re.sub(r"\s+", " ", s)`: collapse every maximal run of whitespace
characters into one space. -/
def collapseWs : List Char → List Char
  | [] => []
  | [c] => if pyIsSpace c then [' '] else [c]
  | c :: d :: cs =>
    if pyIsSpace c && pyIsSpace d then collapseWs (d :: cs)
    else (if pyIsSpace c then ' ' else c) :: collapseWs (d :: cs)

/-- Drop the trailing run of characters satisfying `p` (the right half of the
Python `strip` family). -/
def dropTrailingP (p : Char → Bool) : List Char → List Char
  | [] => []
  | c :: cs =>
    let r := dropTrailingP p cs
    if r = [] && p c then [] else c :: r

/-- Drop the trailing run of whitespace characters. -/
def dropTrailingWs : List Char → List Char :=
  dropTrailingP pyIsSpace

/-- Python `str.strip()` restricted to the modelled whitespace characters. -/
def stripEnds (s : List Char) : List Char :=
  dropTrailingWs (s.dropWhile pyIsSpace)

/-- Python `str.strip(set)`: remove the characters of `set` from both ends. -/
def stripSet (set : List Char) (s : List Char) : List Char :=
  dropTrailingP (fun c => set.contains c) (s.dropWhile (fun c => set.contains c))

/-- The name normalizer `normalize_name` of `carbonpre.py` (lines 76-87) on a
string input (for which the `pd.isna` guard is a no-op): replace `&` by
" and ", strip parenthesized noise, apply the three literal abbreviation
substitutions, erase non-alphanumeric non-whitespace characters, collapse
whitespace runs, trim, and lowercase. -/
def normalize_name (l : List Char) : List Char :=
  let s1 := replaceList ['&'] (" and ".toList) l
  let s2 := stripParens s1
  let s3 := replaceList ("stps".toList) ("tps".toList) s2
  let s4 := replaceList ("station".toList) ("stn".toList) s3
  let s5 := replaceList ("power limited".toList) ("power".toList) s4
  let s6 := s5.map (fun c => if isAlnumAscii c || pyIsSpace c then c else ' ')
  let s7 := collapseWs s6
  let s8 := stripEnds s7
  s8.map Char.toLower

/-! The fuzzy tier of the entity matcher uses
`difflib.SequenceMatcher(None, a, b).ratio()`.  The model below follows the
CPython implementation: `b2j` maps an element to its (ascending) positions in
`b`, with the autojunk heuristic removing popular elements when `b` has at
least 200 elements; `find_longest_match` runs the row dynamic program and the
two non-junk extension passes (the junk extension passes are dead code here
because the source never supplies a junk predicate); the ratio is twice the
total size of the matching blocks over the total length, computed in `ℚ`
(the float rounding of CPython cannot change any comparison made by the
matcher at these string lengths). -/

/-- State of the `find_longest_match` dynamic program: the best block found so
far, as in CPython's `besti`, `bestj`, `bestsize`. -/
structure FlmState where
  besti : Nat
  bestj : Nat
  bestsize : Nat
deriving DecidableEq

/-- CPython `b2j.get(elt, [])`: ascending positions of `c` in `b`, with the
autojunk removal of popular elements for `b` of length at least 200. -/
def b2jList (b : List Char) (c : Char) : List Nat :=
  if 200 ≤ b.length && b.length / 100 + 1 < b.count c then []
  else (List.range b.length).filter (fun j => b.get? j == some c)

/-- Equality of `a.get? i` and `b.get? j` when both positions exist. -/
def cellEq (a b : List Char) (i j : Nat) : Bool :=
  match a.get? i, b.get? j with
  | some x, some y => x = y
  | _, _ => false

/-- The inner loop of `find_longest_match` over the positions of `a[i]` in
`b`: `j < blo` is skipped, `j >= bhi` breaks, and otherwise the run length
ending at `(i, j)` is recorded in the new `j2len` table and the best block is
updated on strict improvement. -/
def flmInner (j2len : Nat → Nat) (i blo bhi : Nat) :
    List Nat → (Nat → Nat) → FlmState → ((Nat → Nat) × FlmState)
  | [], acc, st => (acc, st)
  | j :: js, acc, st =>
    if j < blo then flmInner j2len i blo bhi js acc st
    else if bhi ≤ j then (acc, st)
    else
      let k := (if j = 0 then 0 else j2len (j - 1)) + 1
      let acc2 := fun x => if x = j then k else acc x
      let st2 := if st.bestsize < k then FlmState.mk (i + 1 - k) (j + 1 - k) k else st
      flmInner j2len i blo bhi js acc2 st2

/-- The outer loop of `find_longest_match` over the row indices of `a`. -/
def flmOuter (a b : List Char) (blo bhi : Nat) :
    List Nat → (Nat → Nat) → FlmState → FlmState
  | [], _, st => st
  | i :: is, j2len, st =>
    let p := flmInner j2len i blo bhi (b2jList b (a.getD i ' ')) (fun _ => 0) st
    flmOuter a b blo bhi is p.1 p.2

/-- The first (leftward, non-junk) extension pass of `find_longest_match`,
structurally recursive on `besti`. -/
def extLeft (a b : List Char) (alo blo : Nat) : Nat → Nat → Nat → Nat × Nat × Nat
  | 0, bj, k => (0, bj, k)
  | bi + 1, bj, k =>
    if alo < bi + 1 && blo < bj && cellEq a b bi (bj - 1) then
      extLeft a b alo blo bi (bj - 1) (k + 1)
    else (bi + 1, bj, k)

/-- The second (rightward, non-junk) extension pass of `find_longest_match`;
the fuel counts the room left in `a` (`ahi - (besti + k)`), so exhausting it is
exactly the loop condition `besti + bestsize < ahi` failing. -/
def extRightFuel (a b : List Char) (besti bestj bhi : Nat) : Nat → Nat → Nat
  | 0, k => k
  | fuel + 1, k =>
    if bestj + k < bhi && cellEq a b (besti + k) (bestj + k) then
      extRightFuel a b besti bestj bhi fuel (k + 1)
    else k

/-- CPython `SequenceMatcher.find_longest_match(alo, ahi, blo, bhi)` with no
junk predicate: the dynamic program followed by the two live extension
passes. -/
def findLongestMatch (a b : List Char) (alo ahi blo bhi : Nat) : Nat × Nat × Nat :=
  let st := flmOuter a b blo bhi (List.range' alo (ahi - alo)) (fun _ => 0)
    (FlmState.mk alo blo 0)
  let l := extLeft a b alo blo st.besti st.bestj st.bestsize
  let k2 := extRightFuel a b l.1 l.2.1 bhi (ahi - (l.1 + l.2.2)) l.2.2
  (l.1, l.2.1, k2)

/-- Total size of the matching blocks of `get_matching_blocks` on the segment
`[alo, ahi) × [blo, bhi)`; the fuel bounds the recursion depth (each recursive
call strictly shrinks the segment because the found block is non-empty). -/
def matchSumGo (a b : List Char) : Nat → Nat → Nat → Nat → Nat → Nat
  | 0, _, _, _, _ => 0
  | fuel + 1, alo, ahi, blo, bhi =>
    let t := findLongestMatch a b alo ahi blo bhi
    if t.2.2 = 0 then 0
    else
      matchSumGo a b fuel alo t.1 blo t.2.1 + t.2.2 +
        matchSumGo a b fuel (t.1 + t.2.2) ahi (t.2.1 + t.2.2) bhi

/-- Total number of matching elements between `a` and `b`, the `M` of
`SequenceMatcher.ratio`. -/
def matchSum (a b : List Char) : Nat :=
  matchSumGo a b (a.length + b.length + 1) 0 a.length 0 b.length

/-- `SequenceMatcher(None, a, b).ratio()`: `2M / T`, or `1` when both
sequences are empty. -/
def seqRatio (a b : List Char) : ℚ :=
  let t := a.length + b.length
  if t = 0 then 1 else 2 * matchSum a b / t

/-! The entity matcher `find_best_match_index` (lines 89-121).  At every call
site the series it receives is a freshly read column with a range index, so
`series.index[i]` is the position `i`; the model therefore returns positional
indices.  The series has been passed through `astype(str)`, so every element
is a string and the `pd.isna` guard inside the candidate comprehension is a
no-op. -/

/-- The exact tier: first index whose non-empty normalized label equals the
normalized target. -/
def scanExact (nt : List Char) : List (List Char) → Nat → Option Nat
  | [], _ => none
  | c :: cs, i => if c ≠ [] ∧ c = nt then some i else scanExact nt cs (i + 1)

/-- The substring tier: empty candidates are skipped; a hit is a candidate
containing the non-empty normalized target, or a non-empty candidate contained
in the normalized target. -/
def scanSub (nt : List Char) : List (List Char) → Nat → Option Nat
  | [], _ => none
  | c :: cs, i =>
    if c = [] then scanSub nt cs (i + 1)
    else if nt ≠ [] ∧ nt <:+: c then some i
    else if c <:+: nt ∧ c ≠ [] then some i
    else scanSub nt cs (i + 1)

/-- The fuzzy tier: scan all non-empty candidates, keeping the best ratio and
its index; the best is replaced only on strict improvement. -/
def scanFuzzy (nt : List Char) : List (List Char) → Nat → ℚ → Option Nat → ℚ × Option Nat
  | [], _, br, bi => (br, bi)
  | c :: cs, i, br, bi =>
    if c = [] then scanFuzzy nt cs (i + 1) br bi
    else
      let r := seqRatio nt c
      if br < r then scanFuzzy nt cs (i + 1) r (some i)
      else scanFuzzy nt cs (i + 1) br bi

/-- The entity matcher `find_best_match_index` (lines 89-121): empty input
reports no match, then the exact, substring and fuzzy tiers run in order; the
fuzzy best is accepted only when its ratio reaches `minRatio`. -/
def find_best_match_index (labels : List (List Char)) (plant : List Char)
    (minRatio : ℚ := 11 / 20) : Option Nat :=
  if labels = [] then none
  else
    let nt := normalize_name plant
    let cands := labels.map normalize_name
    match scanExact nt cands 0 with
    | some i => some i
    | none =>
      match scanSub nt cands 0 with
      | some i => some i
      | none =>
        let p := scanFuzzy nt cands 0 0 none
        if minRatio ≤ p.1 then p.2 else none

/-! Date extraction (lines 123-243 of the source).  The result of an
extraction is either a concrete calendar date, a day-of-month placeholder
integer, or nothing; exceptions raised while reading a file are modelled by
the `Except` result of the file's read function and are mapped to "no date". -/

/-- A calendar date as produced by `datetime.date`. -/
structure PDate where
  year : Nat
  month : Nat
  day : Nat
deriving DecidableEq, Repr

/-- Gregorian leap-year test, as used by `datetime`. -/
def isLeapYear (y : Nat) : Bool :=
  y % 4 = 0 && (y % 100 ≠ 0 || y % 400 = 0)

/-- Days in a month, as enforced by the `datetime.date` constructor. -/
def daysInMonth (y m : Nat) : Nat :=
  if m = 2 then (if isLeapYear y then 29 else 28)
  else if m = 4 || m = 6 || m = 9 || m = 11 then 30
  else 31

/-- Validity condition of the `datetime.date(y, m, d)` constructor. -/
def dateValid (y m d : Nat) : Bool :=
  1 ≤ y && y ≤ 9999 && 1 ≤ m && m ≤ 12 && 1 ≤ d && d ≤ daysInMonth y m

/-- Build a `datetime.date`, failing exactly when the constructor would raise. -/
def mkValidDate (y m d : Nat) : Option PDate :=
  if dateValid y m d then some (PDate.mk y m d) else none

/-- The lowercased month names, in order, backing the `month_map` dictionary
and the `%B` format directive. -/
def monthNamesLower : List (List Char) :=
  ["january".toList, "february".toList, "march".toList, "april".toList,
   "may".toList, "june".toList, "july".toList, "august".toList,
   "september".toList, "october".toList, "november".toList, "december".toList]

/-- The lowercased month abbreviations backing the `%b` format directive. -/
def monthAbbrsLower : List (List Char) :=
  ["jan".toList, "feb".toList, "mar".toList, "apr".toList, "may".toList,
   "jun".toList, "jul".toList, "aug".toList, "sep".toList, "oct".toList,
   "nov".toList, "dec".toList]

/-- `month_map.get(name.lower(), default)` of the source: month number of a
lowercased month name.  The source always supplies default `1`. -/
def month_map (s : List Char) : Nat :=
  match monthNamesLower.findIdx? (fun nm => nm == s.map Char.toLower) with
  | some i => i + 1
  | none => 1

/-! Tokens of the `strptime` directives, modelled as ordered alternative
lists `(value, rest)` mirroring the backtracking priority of the regexes that
CPython's `_strptime` compiles (`%d` is `3[01]|[12]\d|0[1-9]|[1-9]`, `%m` is
`1[0-2]|0[1-9]|[1-9]`, `%Y` is four digits, `%y` is two digits mapped through
the POSIX 69-boundary, `%b`/`%B` are the case-insensitive month names, and a
space in the format matches a whitespace run). -/

/-- The `%d` directive. -/
def pDay (cs : List Char) : List (Nat × List Char) :=
  (match cs with
   | c1 :: c2 :: rest =>
     if c1 = '3' && (c2 = '0' || c2 = '1') then [(30 + digitVal c2, rest)]
     else if (c1 = '1' || c1 = '2') && isDigitB c2 then
       [(digitVal c1 * 10 + digitVal c2, rest)]
     else if c1 = '0' && isDigitB c2 && c2 ≠ '0' then [(digitVal c2, rest)]
     else []
   | _ => []) ++
  (match cs with
   | c1 :: rest => if isDigitB c1 && c1 ≠ '0' then [(digitVal c1, rest)] else []
   | [] => [])

/-- The `%m` directive. -/
def pMonthNum (cs : List Char) : List (Nat × List Char) :=
  (match cs with
   | c1 :: c2 :: rest =>
     if c1 = '1' && (c2 = '0' || c2 = '1' || c2 = '2') then [(10 + digitVal c2, rest)]
     else if c1 = '0' && isDigitB c2 && c2 ≠ '0' then [(digitVal c2, rest)]
     else []
   | _ => []) ++
  (match cs with
   | c1 :: rest => if isDigitB c1 && c1 ≠ '0' then [(digitVal c1, rest)] else []
   | [] => [])

/-- The `%Y` directive: exactly four digits. -/
def pY4 (cs : List Char) : List (Nat × List Char) :=
  match cs with
  | a :: b :: c :: d :: rest =>
    if isDigitB a && isDigitB b && isDigitB c && isDigitB d then
      [(digitVal a * 1000 + digitVal b * 100 + digitVal c * 10 + digitVal d, rest)]
    else []
  | _ => []

/-- The `%y` directive: exactly two digits, 0-68 mapped to 2000+, 69-99 to
1900+. -/
def pY2 (cs : List Char) : List (Nat × List Char) :=
  match cs with
  | a :: b :: rest =>
    if isDigitB a && isDigitB b then
      let v := digitVal a * 10 + digitVal b
      [(if v ≤ 68 then 2000 + v else 1900 + v, rest)]
    else []
  | _ => []

/-- A literal character of a format string. -/
def pChar (c : Char) (cs : List Char) : List (Unit × List Char) :=
  match cs with
  | x :: rest => if x = c then [((), rest)] else []
  | [] => []

/-- A space in a format string: a non-empty whitespace run (`\s+`; the tokens
that follow it in the used formats never match whitespace, so taking the
maximal run is exact). -/
def pWs (cs : List Char) : List (Unit × List Char) :=
  match cs with
  | c :: _ => if pyIsSpace c then [((), cs.dropWhile pyIsSpace)] else []
  | [] => []

/-- A case-insensitive month-name directive over the given lowercased name
list, yielding the month number. -/
def pMonthName (names : List (List Char)) (cs : List Char) : List (Nat × List Char) :=
  (List.range 12).filterMap (fun i =>
    match names.getD i [] with
    | [] => none
    | nm =>
      if (cs.take nm.length).map Char.toLower = nm then some (i + 1, cs.drop nm.length)
      else none)

/-- Format `%d S %m S %Y` for a separator `S` (`/` or `-`), with the year
token as a parameter so the two-digit variants share the definition; yields
`(y, m, d)` triples. -/
def fmtSepDMY (sep : Char) (yTok : List Char → List (Nat × List Char))
    (cs : List Char) : List ((Nat × Nat × Nat) × List Char) :=
  (pDay cs).flatMap fun a =>
    (pChar sep a.2).flatMap fun b =>
      (pMonthNum b.2).flatMap fun m =>
        (pChar sep m.2).flatMap fun b2 =>
          (yTok b2.2).map fun y => ((y.1, m.1, a.1), y.2)

/-- Format `%Y-%m-%d`. -/
def fmtYMD (cs : List Char) : List ((Nat × Nat × Nat) × List Char) :=
  (pY4 cs).flatMap fun y =>
    (pChar '-' y.2).flatMap fun b =>
      (pMonthNum b.2).flatMap fun m =>
        (pChar '-' m.2).flatMap fun b2 =>
          (pDay b2.2).map fun d => ((y.1, m.1, d.1), d.2)

/-- Formats `%d %b %Y` and `%d %B %Y`, parameterized by the name list. -/
def fmtDNameY (names : List (List Char)) (cs : List Char) :
    List ((Nat × Nat × Nat) × List Char) :=
  (pDay cs).flatMap fun d =>
    (pWs d.2).flatMap fun w =>
      (pMonthName names w.2).flatMap fun m =>
        (pWs m.2).flatMap fun w2 =>
          (pY4 w2.2).map fun y => ((y.1, m.1, d.1), y.2)

/-- Format `%B %d %Y`. -/
def fmtNameDY (cs : List Char) : List ((Nat × Nat × Nat) × List Char) :=
  (pMonthName monthNamesLower cs).flatMap fun m =>
    (pWs m.2).flatMap fun w =>
      (pDay w.2).flatMap fun d =>
        (pWs d.2).flatMap fun w2 =>
          (pY4 w2.2).map fun y => ((y.1, m.1, d.1), y.2)

/-- Run one format on a candidate string: `strptime` succeeds on the first
backtracking parse that consumes the whole string, then the `datetime.date`
constructor validates it. -/
def runFmt (f : List Char → List ((Nat × Nat × Nat) × List Char))
    (cs : List Char) : Option PDate :=
  match (f cs).filter (fun p => p.2 = []) with
  | [] => none
  | p :: _ => mkValidDate p.1.1 p.1.2.1 p.1.2.2

/-- The format list of `parse_date_string_to_date`, in source order
(`%d/%m/%Y`, `%d-%m-%Y`, `%d/%m/%y`, `%d-%m-%y`, `%Y-%m-%d`, `%d %b %Y`,
`%d %B %Y`, `%B %d %Y`; the trailing lone retry of `%d %B %Y` in the source
is redundant and absorbed). -/
def tryFormats (cs : List Char) : Option PDate :=
  match runFmt (fmtSepDMY '/' pY4) cs with
  | some d => some d
  | none =>
  match runFmt (fmtSepDMY '-' pY4) cs with
  | some d => some d
  | none =>
  match runFmt (fmtSepDMY '/' pY2) cs with
  | some d => some d
  | none =>
  match runFmt (fmtSepDMY '-' pY2) cs with
  | some d => some d
  | none =>
  match runFmt fmtYMD cs with
  | some d => some d
  | none =>
  match runFmt (fmtDNameY monthAbbrsLower) cs with
  | some d => some d
  | none =>
  match runFmt (fmtDNameY monthNamesLower) cs with
  | some d => some d
  | none => runFmt fmtNameDY cs

/-! The four search patterns of `parse_date_string_to_date`, modelled as
matchers returning ordered `(matched text, rest)` alternatives.  Repetitions
are greedy with backtracking (longest first). -/

/-- Greedy bounded repetition of a character class: alternatives from the
longest take of the leading run down to `lo`. -/
def mRep (p : Char → Bool) (lo hi : Nat) (cs : List Char) :
    List (List Char × List Char) :=
  let run := (cs.takeWhile p).length
  let maxk := min hi run
  ((List.range (maxk + 1)).reverse.filter (fun k => lo ≤ k)).map
    (fun k => (cs.take k, cs.drop k))

/-- A single character from a set (a slash-or-dash separator class and similar). -/
def mSet (set : List Char) (cs : List Char) : List (List Char × List Char) :=
  match cs with
  | c :: rest => if set.contains c then [([c], rest)] else []
  | [] => []

/-- An optional character (`,?`), greedy. -/
def mOpt (c : Char) (cs : List Char) : List (List Char × List Char) :=
  match cs with
  | x :: rest => if x = c then [([c], rest), ([], cs)] else [([], cs)]
  | [] => [([], cs)]

/-- Matcher sequencing. -/
def mSeq (m1 m2 : List Char → List (List Char × List Char)) (cs : List Char) :
    List (List Char × List Char) :=
  (m1 cs).flatMap fun p => (m2 p.2).map fun q => (p.1 ++ q.1, q.2)

/-- Pattern 1: one or two digits, slash-or-dash, one or two digits, slash-or-dash, two to four digits. -/
def patSlashed : List Char → List (List Char × List Char) :=
  mSeq (mRep isDigitB 1 2) (mSeq (mSet ['/', '-'])
    (mSeq (mRep isDigitB 1 2) (mSeq (mSet ['/', '-']) (mRep isDigitB 2 4))))

/-- Pattern `\d{4}-\d{2}-\d{2}`. -/
def patIso : List Char → List (List Char × List Char) :=
  mSeq (mRep isDigitB 4 4) (mSeq (mSet ['-'])
    (mSeq (mRep isDigitB 2 2) (mSeq (mSet ['-']) (mRep isDigitB 2 2))))

/-- Pattern `\d{1,2}\s+[A-Za-z]{3,9}\s+\d{4}`. -/
def patDMonY : List Char → List (List Char × List Char) :=
  mSeq (mRep isDigitB 1 2) (mSeq (mRep pyIsSpace 1 1000000)
    (mSeq (mRep isAsciiAlpha 3 9) (mSeq (mRep pyIsSpace 1 1000000)
      (mRep isDigitB 4 4))))

/-- Pattern `[A-Za-z]{3,9}\s+\d{1,2},?\s+\d{4}`. -/
def patMonDY : List Char → List (List Char × List Char) :=
  mSeq (mRep isAsciiAlpha 3 9) (mSeq (mRep pyIsSpace 1 1000000)
    (mSeq (mRep isDigitB 1 2) (mSeq (mOpt ',') (mSeq (mRep pyIsSpace 1 1000000)
      (mRep isDigitB 4 4)))))

/-- `re.search`: try each start position left to right and return the first
(highest-priority) match text there. -/
def reSearch (m : List Char → List (List Char × List Char)) :
    List Char → Option (List Char)
  | [] =>
    match m [] with
    | [] => none
    | p :: _ => some p.1
  | l@(_ :: t) =>
    match m l with
    | p :: _ => some p.1
    | [] => reSearch m t

/-- Numeric value of a digit string (`int`, leading zeros allowed). -/
def natOfDigits (ds : List Char) : Nat :=
  ds.foldl (fun a c => a * 10 + digitVal c) 0

/-- `re.search(r"DAY\s*(\d+)", s)`: the `\s*` skip is maximal (digits are not
whitespace), and the position only counts when at least one digit follows. -/
def findDayNum : List Char → Option Nat
  | [] => none
  | l@(_ :: t) =>
    if ("DAY".toList).isPrefixOf l then
      let ds := ((l.drop 3).dropWhile pyIsSpace).takeWhile isDigitB
      if ds = [] then findDayNum t else some (natOfDigits ds)
    else findDayNum t

/-- `re.search(r"\b(\d{1,2})\b", s)` with Python word boundaries (`_` is a
word character); `prev` is the character before the current position. -/
def findStandalone12 : Option Char → List Char → Option Nat
  | _, [] => none
  | prev, c :: rest =>
    let bBefore := match prev with
      | none => true
      | some p => !isWordChar p
    if bBefore && isDigitB c then
      match rest with
      | d :: rest2 =>
        if isDigitB d then
          if (match rest2 with | [] => true | x :: _ => !isWordChar x) then
            some (digitVal c * 10 + digitVal d)
          else findStandalone12 (some c) rest
        else if !isWordChar d then some (digitVal c)
        else findStandalone12 (some c) rest
      | [] => some (digitVal c)
    else findStandalone12 (some c) rest

/-- `parse_date_string_to_date` (lines 129-156) on a string input: trim
whitespace, strip `(`, `)` and spaces from the ends, delete periods, try the
four search patterns in order (each found candidate is run through the format
list; on total failure the scan falls through to the next pattern), then look
for a `DAY n` token as an integer placeholder. -/
def parse_date_string_to_date (s : List Char) : Option (PDate ⊕ Nat) :=
  if s = [] then none
  else
    let t := replaceList ['.'] [] (stripSet ['(', ')', ' '] (stripEnds s))
    let viaPatterns :=
      match (reSearch patSlashed t).bind tryFormats with
      | some d => some d
      | none =>
      match (reSearch patIso t).bind tryFormats with
      | some d => some d
      | none =>
      match (reSearch patDMonY t).bind tryFormats with
      | some d => some d
      | none => (reSearch patMonDY t).bind tryFormats
    match viaPatterns with
    | some d => some (Sum.inl d)
    | none =>
      match findDayNum (t.map Char.toUpper) with
      | some n => some (Sum.inr n)
      | none => none


/-! The spreadsheet collaborator and the extraction pipeline (lines 38-50,
600-788).  A file is an opaque handle exposing its display name and a read
operation keyed by the header-row argument and the row limit, returning a
frame (column names and cell grid) or a failure, exactly the contract the
source exercises through `pd.read_excel`. -/

/-- A spreadsheet cell: empty (`NaN`), text, or numeric. -/
inductive Cell where
  | empty
  | str (s : String)
  | num (q : ℚ)
deriving DecidableEq

/-- A loaded tabular frame: stringified column names and the cell grid. -/
structure Frame where
  cols : List String
  cells : List (List Cell)
deriving DecidableEq

/-- A source file: display name plus the read collaborator (header argument,
row-limit argument).  The `usecols` argument of the source's helper appears
only in the menu-scanning UI block, which is outside the modelled core. -/
structure SFile where
  name : String
  read : Option Nat → Option Nat → Except Unit Frame

/-- The helper `read_excel_auto` restricted to the arguments the core uses. -/
def read_excel_auto (f : SFile) (header nrows : Option Nat) : Except Unit Frame :=
  f.read header nrows

/-- Cell at a row/column position (`iloc`); the source only indexes in
bounds, so the empty-cell default is never observed on source-reachable
paths. -/
def cellAt (fr : Frame) (r c : Nat) : Cell :=
  (fr.cells.getD r []).getD c Cell.empty

/-- One column of the grid, by position. -/
def colAt (fr : Frame) (j : Nat) : List Cell :=
  fr.cells.map (fun row => row.getD j Cell.empty)

/-- Decimal rendering of a rational, used to model `str()` of a numeric cell
(spreadsheet numerics surface as Python floats, so integers render with a
trailing `.0`); values needing more than 17 fractional digits are truncated,
an approximation of repr that no modelled claim exercises. -/
def ratDecimalString (q : ℚ) : String :=
  let sign := if q < 0 then "-" else ""
  let n := q.num.natAbs
  let ip := n / q.den
  let fracDigits := ((List.range 17).foldl
    (fun (acc : List Nat × Nat) _ => ((acc.2 * 10) / q.den :: acc.1, (acc.2 * 10) % q.den))
    ([], n % q.den)).1.reverse
  let fr := (fracDigits.reverse.dropWhile (fun k => k = 0)).reverse
  let fstr := if fr = [] then "0" else String.join (fr.map (fun k => toString k))
  sign ++ toString ip ++ "." ++ fstr

/-- Python `str()` of a cell (`str(nan)` is the text `nan`). -/
def cellStr (c : Cell) : String :=
  match c with
  | Cell.empty => "nan"
  | Cell.str s => s
  | Cell.num q => ratDecimalString q

/-- `os.path.splitext(...)[0]`: drop the last-dot extension, unless every
character before the last dot is itself a dot. -/
def splitextStem (s : List Char) : List Char :=
  match s.reverse.findIdx? (fun c => c = '.') with
  | none => s
  | some ri =>
    let i := s.length - 1 - ri
    if (s.take i).any (fun c => c ≠ '.') then s.take i else s

/-- `get_date_from_generation_file` (lines 158-194): a failed top read is
swallowed as no date; then the privileged cell A2 plus the first ten cells of
column A are parsed combined (only a full date counts there) and then one by
one (a date or a `DAY` placeholder counts); then the display-name stem is
parsed, searched for a `DAY` token, and finally mined for a standalone one- or
two-digit day to combine with the fallback month and year, an invalid
combination being swallowed. -/
def get_date_from_generation_file (f : SFile) (fallbackMonth : String)
    (fallbackYear : Nat) : Option (PDate ⊕ Nat) :=
  match f.read none (some 10) with
  | .error _ => none
  | .ok top =>
    let nr := top.cells.length
    let candidateCells :=
      (if 1 < nr then [cellAt top 1 0] else []) ++
        (List.range (min 10 nr)).map (fun r => cellAt top r 0)
    let combined := String.intercalate " "
      ((candidateCells.filter (fun c => c ≠ Cell.empty)).map cellStr)
    match parse_date_string_to_date combined.toList with
    | some (Sum.inl d) => some (Sum.inl d)
    | _ =>
      match candidateCells.findSome? (fun c => parse_date_string_to_date (cellStr c).toList) with
      | some r => some r
      | none =>
        let fname := splitextStem f.name.toList
        match parse_date_string_to_date fname with
        | some r => some r
        | none =>
          match findDayNum (fname.map Char.toUpper) with
          | some n => some (Sum.inr n)
          | none =>
            match findStandalone12 none fname with
            | some day =>
              match mkValidDate fallbackYear (month_map fallbackMonth.toList) day with
              | some d => some (Sum.inl d)
              | none => none
            | none => none

/-- `get_date_from_coal_file` (lines 196-232): identical to the generation
variant except that the privileged cell is A3. -/
def get_date_from_coal_file (f : SFile) (fallbackMonth : String)
    (fallbackYear : Nat) : Option (PDate ⊕ Nat) :=
  match f.read none (some 10) with
  | .error _ => none
  | .ok top =>
    let nr := top.cells.length
    let candidateCells :=
      (if 2 < nr then [cellAt top 2 0] else []) ++
        (List.range (min 10 nr)).map (fun r => cellAt top r 0)
    let combined := String.intercalate " "
      ((candidateCells.filter (fun c => c ≠ Cell.empty)).map cellStr)
    match parse_date_string_to_date combined.toList with
    | some (Sum.inl d) => some (Sum.inl d)
    | _ =>
      match candidateCells.findSome? (fun c => parse_date_string_to_date (cellStr c).toList) with
      | some r => some r
      | none =>
        let fname := splitextStem f.name.toList
        match parse_date_string_to_date fname with
        | some r => some r
        | none =>
          match findDayNum (fname.map Char.toUpper) with
          | some n => some (Sum.inr n)
          | none =>
            match findStandalone12 none fname with
            | some day =>
              match mkValidDate fallbackYear (month_map fallbackMonth.toList) day with
              | some d => some (Sum.inl d)
              | none => none
            | none => none

/-- Left-pad a number with zeros to `k` digits. -/
def padZeros (k n : Nat) : String :=
  let s := toString n
  String.mk (List.replicate (k - s.length) '0') ++ s

/-- `strftime("%d/%m/%Y")`. -/
def fmtDMYslash (d : PDate) : String :=
  padZeros 2 d.day ++ "/" ++ padZeros 2 d.month ++ "/" ++ padZeros 4 d.year

/-- `format_date_label` (lines 234-243): a date formats as day/month/year; a
day placeholder is resolved against the fallback month and year, degrading to
a `DAY n` label with no sortable date when invalid; nothing yields nothing. -/
def format_date_label (raw : Option (PDate ⊕ Nat)) (fm : String) (fy : Nat) :
    Option String × Option PDate :=
  match raw with
  | some (Sum.inl dt) => (some (fmtDMYslash dt), some dt)
  | some (Sum.inr n) =>
    match mkValidDate fy (month_map fm.toList) n with
    | some dt => (some (fmtDMYslash dt), some dt)
    | none => (some ("DAY " ++ toString n), none)
  | none => (none, none)

/-- Case-sensitive substring test on strings (Python `in`). -/
def containsStr (hay : List Char) (needle : String) : Bool :=
  decide (needle.toList <:+: hay)

/-- Upper-cased character list of a string (`str(c).upper()` for the ASCII
column names the detectors inspect). -/
def upperList (s : String) : List Char :=
  s.toList.map Char.toUpper

/-- The first-pass keyword condition of `detect_generation_col`: the
upper-cased name has `TODAY` and `ACTUAL` but neither `APRIL` nor `TILL`. -/
def genColRule1 (c : String) : Bool :=
  containsStr (upperList c) "TODAY" && containsStr (upperList c) "ACTUAL" &&
    !containsStr (upperList c) "APRIL" && !containsStr (upperList c) "TILL"

/-- The second-pass keyword condition of `detect_generation_col`: `ACTUAL`,
or `DAILY` together with `GEN`. -/
def genColRule2 (c : String) : Bool :=
  containsStr (upperList c) "ACTUAL" ||
    (containsStr (upperList c) "DAILY" && containsStr (upperList c) "GEN")

/-- The keyword condition of `detect_coal_col`: `CONSUM` or `COAL`. -/
def coalColRule (c : String) : Bool :=
  containsStr (upperList c) "CONSUM" || containsStr (upperList c) "COAL"

/-- `detect_generation_col` (lines 52-61): one full pass preferring the
first-rule columns, then a second full pass with the fallback rule. -/
def detect_generation_col (cols : List String) : Option String :=
  match cols.find? genColRule1 with
  | some c => some c
  | none => cols.find? genColRule2

/-- `detect_coal_col` (lines 63-68). -/
def detect_coal_col (cols : List String) : Option String :=
  cols.find? coalColRule

/-- `detect_coal_header` (lines 41-50): the first candidate header row in
0..9 whose read succeeds and exposes a column name containing `Thermal` or
`Station` (case-sensitive); row 0 when none qualifies. -/
def detect_coal_header (f : SFile) : Nat :=
  ((List.range 10).find? (fun hdr =>
    match f.read (some hdr) (some 10) with
    | .ok fr => fr.cols.any (fun c => containsStr c.toList "Thermal" || containsStr c.toList "Station")
    | .error _ => false)).getD 0

/-- Python `float(str)` on finite decimal literals (optional sign, digits
with an optional point, optional exponent); the non-finite literals `nan` and
`inf` are treated as unparseable, a divergence no modelled claim reaches. -/
def pyParseFloat (s : List Char) : Option ℚ :=
  let t := stripEnds s
  let sgn : ℚ := match t with
    | '-' :: _ => -1
    | _ => 1
  let t1 := match t with
    | '-' :: r => r
    | '+' :: r => r
    | _ => t
  let ds := t1.takeWhile isDigitB
  let r1 := t1.drop ds.length
  let fds := match r1 with
    | '.' :: rr => rr.takeWhile isDigitB
    | _ => []
  let r2 := match r1 with
    | '.' :: rr => rr.drop (rr.takeWhile isDigitB).length
    | _ => r1
  if ds = [] ∧ fds = [] then none
  else
    let mant : ℚ := (natOfDigits ds : ℚ) + (natOfDigits fds : ℚ) / ((10 : ℚ) ^ fds.length)
    match r2 with
    | [] => some (sgn * mant)
    | e :: rr =>
      if e = 'e' ∨ e = 'E' then
        let eneg : Bool := match rr with
          | '-' :: _ => true
          | _ => false
        let rr1 := match rr with
          | '-' :: q => q
          | '+' :: q => q
          | _ => rr
        let eds := rr1.takeWhile isDigitB
        if eds = [] ∨ rr1.drop eds.length ≠ [] then none
        else some (sgn * mant * (if eneg then 1 / (10 : ℚ) ^ natOfDigits eds else (10 : ℚ) ^ natOfDigits eds))
      else none

/-- Rounding of `f"{x:.4f}"`: four decimal places, ties to even. -/
def fmt4 (q : ℚ) : String :=
  let scaled := q * 10000
  let fl : ℤ := Int.floor scaled
  let r : ℚ := scaled - (fl : ℚ)
  let n : ℤ :=
    if r < 1 / 2 then fl
    else if 1 / 2 < r then fl + 1
    else if fl % 2 = 0 then fl else fl + 1
  let sign := if q < 0 then "-" else ""
  sign ++ toString (n.natAbs / 10000) ++ "." ++ padZeros 4 (n.natAbs % 10000)

/-- `format_num` (lines 70-74): numeric cells format to four decimals, text
cells are parsed as floats first, any failure yields the empty string, and a
`NaN` cell formats as the text `nan` (the float carries through). -/
def format_num (c : Cell) : String :=
  match c with
  | Cell.num q => fmt4 q
  | Cell.str s =>
    match pyParseFloat s.toList with
    | some q => fmt4 q
    | none => ""
  | Cell.empty => "nan"

/-- The static registry `plant_info` (lines 246-484): canonical plant name,
administrative state, grid region. -/
def plant_info : List (String × String × String) :=
[
  ("PANIPAT TPS", "Haryana", "NORTHERN"),
  ("RAJIV GANDHI TPS", "Haryana", "NORTHERN"),
  ("YAMUNA NAGAR TPS", "Haryana", "NORTHERN"),
  ("MAHATMA GANDHI TPS", "Haryana", "NORTHERN"),
  ("INDIRA GANDHI STPP", "Haryana", "NORTHERN"),
  ("GH TPS (LEH.MOH.)", "Punjab", "NORTHERN"),
  ("GOINDWAL SAHIB TPP", "Punjab", "NORTHERN"),
  ("ROPAR TPS", "Punjab", "NORTHERN"),
  ("RAJPURA TPP", "Punjab", "NORTHERN"),
  ("TALWANDI SABO TPP", "Punjab", "NORTHERN"),
  ("CHHABRA-II TPP", "Rajasthan", "NORTHERN"),
  ("CHHABRA-I PH-1 TPP", "Rajasthan", "NORTHERN"),
  ("CHHABRA-I PH-2 TPP", "Rajasthan", "NORTHERN"),
  ("KALISINDH TPS", "Rajasthan", "NORTHERN"),
  ("KOTA TPS", "Rajasthan", "NORTHERN"),
  ("SURATGARH STPS", "Rajasthan", "NORTHERN"),
  ("SURATGARH TPS", "Rajasthan", "NORTHERN"),
  ("GIRAL TPS", "Rajasthan", "NORTHERN"),
  ("ADANI POWER LIMITED KAWAI TPP", "Rajasthan", "NORTHERN"),
  ("JALIPA KAPURDI TPP", "Rajasthan", "NORTHERN"),
  ("SHREE CEMENT LTD TPS", "Rajasthan", "NORTHERN"),
  ("ANPARA TPS", "Uttar Pradesh", "NORTHERN"),
  ("HARDUAGANJ TPS", "Uttar Pradesh", "NORTHERN"),
  ("JAWAHARPUR STPP", "Uttar Pradesh", "NORTHERN"),
  ("OBRA TPS", "Uttar Pradesh", "NORTHERN"),
  ("PARICHHA TPS", "Uttar Pradesh", "NORTHERN"),
  ("ANPARA C TPS", "Uttar Pradesh", "NORTHERN"),
  ("BARKHERA TPS", "Uttar Pradesh", "NORTHERN"),
  ("KHAMBARKHERA TPS", "Uttar Pradesh", "NORTHERN"),
  ("KUNDARKI TPS", "Uttar Pradesh", "NORTHERN"),
  ("MAQSOODPUR TPS", "Uttar Pradesh", "NORTHERN"),
  ("PRAYAGRAJ TPP", "Uttar Pradesh", "NORTHERN"),
  ("ROSA TPP Ph-I", "Uttar Pradesh", "NORTHERN"),
  ("UTRAULA TPS", "Uttar Pradesh", "NORTHERN"),
  ("DADRI (NCTPP)", "Uttar Pradesh", "NORTHERN"),
  ("GHATAMPUR TPP", "Uttar Pradesh", "NORTHERN"),
  ("KHURJA TPP", "Uttar Pradesh", "NORTHERN"),
  ("MEJA STPP", "Uttar Pradesh", "NORTHERN"),
  ("RIHAND STPS", "Uttar Pradesh", "NORTHERN"),
  ("SINGRAULI STPS", "Uttar Pradesh", "NORTHERN"),
  ("TANDA TPS", "Uttar Pradesh", "NORTHERN"),
  ("UNCHAHAR TPS", "Uttar Pradesh", "NORTHERN"),
  ("DSPM TPS", "Chhatisgarh", "WESTERN"),
  ("KORBA-WEST TPS", "Chhatisgarh", "WESTERN"),
  ("MARWA TPS", "Chhatisgarh", "WESTERN"),
  ("ADANI POWER LIMITED RAIGARH TPP", "Chhatisgarh", "WESTERN"),
  ("ADANI POWER LIMITED RAIPUR TPP", "Chhatisgarh", "WESTERN"),
  ("AKALTARA TPS", "Chhatisgarh", "WESTERN"),
  ("BALCO TPS", "Chhatisgarh", "WESTERN"),
  ("BANDAKHAR TPP", "Chhatisgarh", "WESTERN"),
  ("BARADARHA TPS", "Chhatisgarh", "WESTERN"),
  ("BINJKOTE TPP", "Chhatisgarh", "WESTERN"),
  ("CHAKABURA TPP", "Chhatisgarh", "WESTERN"),
  ("KASAIPALLI TPP", "Chhatisgarh", "WESTERN"),
  ("KATGHORA TPP", "Chhatisgarh", "WESTERN"),
  ("NAWAPARA TPP", "Chhatisgarh", "WESTERN"),
  ("OP JINDAL TPS", "Chhatisgarh", "WESTERN"),
  ("PATHADI TPP", "Chhatisgarh", "WESTERN"),
  ("RATIJA TPS", "Chhatisgarh", "WESTERN"),
  ("SALORA TPP", "Chhatisgarh", "WESTERN"),
  ("SINGHITARAI TPP", "Chhatisgarh", "WESTERN"),
  ("SVPL TPP", "Chhatisgarh", "WESTERN"),
  ("SWASTIK KORBA TPP", "Chhatisgarh", "WESTERN"),
  ("TAMNAR TPP", "Chhatisgarh", "WESTERN"),
  ("UCHPINDA TPP", "Chhatisgarh", "WESTERN"),
  ("BHILAI TPS", "Chhatisgarh", "WESTERN"),
  ("KORBA STPS", "Chhatisgarh", "WESTERN"),
  ("LARA TPP", "Chhatisgarh", "WESTERN"),
  ("SIPAT STPS", "Chhatisgarh", "WESTERN"),
  ("AKRIMOTA LIG TPS", "Gujarat", "WESTERN"),
  ("BHAVNAGAR CFBC TPP", "Gujarat", "WESTERN"),
  ("GANDHI NAGAR TPS", "Gujarat", "WESTERN"),
  ("UKAI TPS", "Gujarat", "WESTERN"),
  ("WANAKBORI TPS", "Gujarat", "WESTERN"),
  ("SIKKA REP. TPS", "Gujarat", "WESTERN"),
  ("KUTCH LIG. TPS", "Gujarat", "WESTERN"),
  ("ADANI POWER LIMITED MUNDRA TPP - III", "Gujarat", "WESTERN"),
  ("ADANI POWER LIMITED MUNDRA TPP - I & II", "Gujarat", "WESTERN"),
  ("MUNDRA UMTPP", "Gujarat", "WESTERN"),
  ("SABARMATI (D-F STATIONS)", "Gujarat", "WESTERN"),
  ("SALAYA TPP", "Gujarat", "WESTERN"),
  ("SURAT LIG. TPS", "Gujarat", "WESTERN"),
  ("AMARKANTAK EXT TPS", "Madhya Pradesh", "WESTERN"),
  ("SANJAY GANDHI TPS", "Madhya Pradesh", "WESTERN"),
  ("SATPURA TPS", "Madhya Pradesh", "WESTERN"),
  ("SHREE SINGAJI TPP", "Madhya Pradesh", "WESTERN"),
  ("ANUPPUR TPP", "Madhya Pradesh", "WESTERN"),
  ("BINA TPS", "Madhya Pradesh", "WESTERN"),
  ("MAHAN TPP", "Madhya Pradesh", "WESTERN"),
  ("NIGRI TPP", "Madhya Pradesh", "WESTERN"),
  ("NIWARI TPP", "Madhya Pradesh", "WESTERN"),
  ("SASAN UMTPP", "Madhya Pradesh", "WESTERN"),
  ("GADARWARA TPP", "Madhya Pradesh", "WESTERN"),
  ("KHARGONE STPP", "Madhya Pradesh", "WESTERN"),
  ("SEIONI TPP", "Madhya Pradesh", "WESTERN"),
  ("VINDHYACHAL STPS", "Madhya Pradesh", "WESTERN"),
  ("BHUSAWAL TPS", "Maharashtra", "WESTERN"),
  ("CHANDRAPUR(MAHARASHTRA) STPS", "Maharashtra", "WESTERN"),
  ("KHAPARKHEDA TPS", "Maharashtra", "WESTERN"),
  ("KORADI TPS", "Maharashtra", "WESTERN"),
  ("NASIK TPS", "Maharashtra", "WESTERN"),
  ("PARAS TPS", "Maharashtra", "WESTERN"),
  ("PARLI TPS", "Maharashtra", "WESTERN"),
  ("ADANI POWER LIMITED TIRODA TPP", "Maharashtra", "WESTERN"),
  ("AMRAVATI TPS", "Maharashtra", "WESTERN"),
  ("BELA TPS", "Maharashtra", "WESTERN"),
  ("BUTIBORI TPP", "Maharashtra", "WESTERN"),
  ("DAHANU TPS", "Maharashtra", "WESTERN"),
  ("DHARIWAL TPP", "Maharashtra", "WESTERN"),
  ("GEPL TPP Ph-I", "Maharashtra", "WESTERN"),
  ("GMR WARORA TPS", "Maharashtra", "WESTERN"),
  ("JSW RATNAGIRI TPP", "Maharashtra", "WESTERN"),
  ("LANCO VIDARBHA TPP", "Maharashtra", "WESTERN"),
  ("MIHAN TPS", "Maharashtra", "WESTERN"),
  ("NASIK (P) TPS", "Maharashtra", "WESTERN"),
  ("SHIRPUR TPP", "Maharashtra", "WESTERN"),
  ("TROMBAY TPS", "Maharashtra", "WESTERN"),
  ("WARDHA WARORA TPP", "Maharashtra", "WESTERN"),
  ("MAUDA TPS", "Maharashtra", "WESTERN"),
  ("SOLAPUR STPS", "Maharashtra", "WESTERN"),
  ("SGPL TPP", "Andhra Pradesh", "SOUTHERN"),
  ("PAINAMPURAM TPP", "Andhra Pradesh", "SOUTHERN"),
  ("Dr. N.TATA RAO TPS", "Andhra Pradesh", "SOUTHERN"),
  ("RAYALASEEMA TPS", "Andhra Pradesh", "SOUTHERN"),
  ("DAMODARAM SANJEEVAIAH TPS", "Andhra Pradesh", "SOUTHERN"),
  ("SIMHAPURI TPS", "Andhra Pradesh", "SOUTHERN"),
  ("THAMMINAPATNAM TPS", "Andhra Pradesh", "SOUTHERN"),
  ("VIZAG TPP", "Andhra Pradesh", "SOUTHERN"),
  ("BELLARY TPS", "Karnataka", "SOUTHERN"),
  ("RAICHUR TPS", "Karnataka", "SOUTHERN"),
  ("YERMARUS TPP", "Karnataka", "SOUTHERN"),
  ("ADANI POWER LIMITED UDUPI TPP", "Karnataka", "SOUTHERN"),
  ("TORANGALLU TPS(SBU-I)", "Karnataka", "SOUTHERN"),
  ("TORANGALLU TPS(SBU-II)", "Karnataka", "SOUTHERN"),
  ("KUDGI STPP", "Karnataka", "SOUTHERN"),
  ("METTUR TPS", "Tamil Nadu", "SOUTHERN"),
  ("METTUR TPS - II", "Tamil Nadu", "SOUTHERN"),
  ("NORTH CHENNAI TPS", "Tamil Nadu", "SOUTHERN"),
  ("TUTICORIN TPS", "Tamil Nadu", "SOUTHERN"),
  ("NTPL TUTICORIN TPP", "Tamil Nadu", "SOUTHERN"),
  ("UDANGUDI TPP", "Tamil Nadu", "SOUTHERN"),
  ("ITPCL TPP", "Tamil Nadu", "SOUTHERN"),
  ("MUTHIARA TPP", "Tamil Nadu", "SOUTHERN"),
  ("NEYVELI TPS(Z)", "Tamil Nadu", "SOUTHERN"),
  ("TUTICORIN (P) TPP", "Tamil Nadu", "SOUTHERN"),
  ("TUTICORIN TPP ST-IV", "Tamil Nadu", "SOUTHERN"),
  ("NEYVELI (EXT) TPS", "Tamil Nadu", "SOUTHERN"),
  ("NEYVELI NEW TPP", "Tamil Nadu", "SOUTHERN"),
  ("NEYVELI TPS-II", "Tamil Nadu", "SOUTHERN"),
  ("NEYVELI TPS-II EXP", "Tamil Nadu", "SOUTHERN"),
  ("VALLUR TPP", "Tamil Nadu", "SOUTHERN"),
  ("SINGARENI TPP", "Telangana", "SOUTHERN"),
  ("BHADRADRI TPP", "Telangana", "SOUTHERN"),
  ("KAKATIYA TPS", "Telangana", "SOUTHERN"),
  ("KOTHAGUDEM TPS (NEW)", "Telangana", "SOUTHERN"),
  ("KOTHAGUDEM TPS (STAGE-7)", "Telangana", "SOUTHERN"),
  ("RAMAGUNDEM-B TPS", "Telangana", "SOUTHERN"),
  ("YADADRI TPS", "Telangana", "SOUTHERN"),
  ("RAMAGUNDEM STPS", "Telangana", "SOUTHERN"),
  ("TELANGANA STPP PH-1", "Telangana", "SOUTHERN"),
  ("BARAUNI TPS", "Bihar", "EASTERN"),
  ("BARH STPS", "Bihar", "EASTERN"),
  ("BUXAR TPP", "Bihar", "EASTERN"),
  ("KAHALGAON TPS", "Bihar", "EASTERN"),
  ("MUZAFFARPUR TPS", "Bihar", "EASTERN"),
  ("NABINAGAR STPP", "Bihar", "EASTERN"),
  ("NABINAGAR TPP", "Bihar", "EASTERN"),
  ("TENUGHAT TPS", "Jharkhand", "EASTERN"),
  ("JOJOBERA TPS", "Jharkhand", "EASTERN"),
  ("MAHADEV PRASAD STPP", "Jharkhand", "EASTERN"),
  ("MAITHON RB TPP", "Jharkhand", "EASTERN"),
  ("MAITRISHI USHA TPS", "Jharkhand", "EASTERN"),
  ("BOKARO TPS A EXP", "Jharkhand", "EASTERN"),
  ("CHANDRAPURA(DVC) TPS", "Jharkhand", "EASTERN"),
  ("KODARMA TPP", "Jharkhand", "EASTERN"),
  ("NORTH KARANPURA TPP", "Jharkhand", "EASTERN"),
  ("PATRATU STPP", "Jharkhand", "EASTERN"),
  ("IB VALLEY TPS", "Odisha", "EASTERN"),
  ("DERANG TPP", "Odisha", "EASTERN"),
  ("KAMALANGA TPS", "Odisha", "EASTERN"),
  ("LANCO BABANDH TPP", "Odisha", "EASTERN"),
  ("UTKAL TPP (IND BARATH)", "Odisha", "EASTERN"),
  ("VEDANTA TPP", "Odisha", "EASTERN"),
  ("DARLIPALI STPS", "Odisha", "EASTERN"),
  ("TALCHER STPS", "Odisha", "EASTERN"),
  ("D.P.L. TPS", "West Bengal", "EASTERN"),
  ("BAKRESWAR TPS", "West Bengal", "EASTERN"),
  ("BANDEL TPS", "West Bengal", "EASTERN"),
  ("KOLAGHAT TPS", "West Bengal", "EASTERN"),
  ("SAGARDIGHI TPS", "West Bengal", "EASTERN"),
  ("SANTALDIH TPS", "West Bengal", "EASTERN"),
  ("SAGARDIGHI TPP ST-III", "West Bengal", "EASTERN"),
  ("BUDGE BUDGE TPS", "West Bengal", "EASTERN"),
  ("DISHERGARH TPP", "West Bengal", "EASTERN"),
  ("HIRANMAYE TPP", "West Bengal", "EASTERN"),
  ("SOUTHERN REPL. TPS", "West Bengal", "EASTERN"),
  ("TITAGARH TPS", "West Bengal", "EASTERN"),
  ("DURGAPUR STEEL TPS", "West Bengal", "EASTERN"),
  ("FARAKKA STPS", "West Bengal", "EASTERN"),
  ("MEJIA TPS", "West Bengal", "EASTERN"),
  ("RAGHUNATHPUR TPP", "West Bengal", "EASTERN"),
  ("BONGAIGAON TPP", "Assam", "NORTH EASTERN")]
/-- The registry keys (`set(plant_info.keys())`), the allow-list of the final
filter. -/
def allowed_plants : List String :=
  plant_info.map (fun e => e.1)

/-- `plant_info.get(plant, ("Unknown", "Unknown"))`. -/
def plantLookup (p : String) : String × String :=
  match plant_info.find? (fun e => e.1 == p) with
  | some e => e.2
  | none => ("Unknown", "Unknown")

/-- One raw output row before sorting and formatting (the `gen_data` and
`coal_data` list entries: label, sortable date, state, plant, region,
metric). -/
structure RawRow where
  dateLabel : String
  dateObj : Option PDate
  state : String
  plant : String
  region : String
  value : String
deriving DecidableEq

/-- One displayed row (Date, State Name, Thermal Plant, Region, metric). -/
structure FinalRow where
  date : String
  state : String
  plant : String
  region : String
  value : String
deriving DecidableEq

/-- One row of the merged export; `coalVal = none` is the `NaN` a left join
leaves in unmatched rows, serialized as an empty cell. -/
structure MergedRow where
  date : String
  state : String
  plant : String
  region : String
  genVal : String
  coalVal : Option String
deriving DecidableEq

/-- Lexicographic date order. -/
def dateLeB (a b : PDate) : Bool :=
  if a.year ≠ b.year then decide (a.year < b.year)
  else if a.month ≠ b.month then decide (a.month < b.month)
  else decide (a.day ≤ b.day)

/-- The sort key of `sort_values(by=[Date_dt, Thermal Plant],
na_position=last)`: dates ascending with missing dates last, then plant name;
pandas leaves the order otherwise unspecified, which a stable insertion sort
realizes deterministically. -/
def rowLe (a b : RawRow) : Bool :=
  match a.dateObj, b.dateObj with
  | some x, some y => if x = y then decide (a.plant ≤ b.plant) else dateLeB x y
  | some _, none => true
  | none, some _ => false
  | none, none => decide (a.plant ≤ b.plant)

/-- Insert into a sorted list. -/
def insertSorted (le : α → α → Bool) (x : α) : List α → List α
  | [] => [x]
  | y :: ys => if le x y then x :: y :: ys else y :: insertSorted le x ys

/-- Insertion sort. -/
def insertionSort (le : α → α → Bool) (l : List α) : List α :=
  l.foldr (insertSorted le) []

/-- The generation-table load of the extraction loop (lines 625-628): fixed
header row 3, with a header-row-0 fallback when that read fails. -/
def load_generation_table (f : SFile) : Except Unit Frame :=
  match f.read (some 3) none with
  | .ok fr => .ok fr
  | .error _ => f.read (some 0) none

/-- Column-name stripping applied after each load
(`[str(c).strip() for c in df.columns]`). -/
def stripCols (fr : Frame) : Frame :=
  Frame.mk (fr.cols.map (fun c => (stripEnds c.toList).asString)) fr.cells

/-- Position of a detected column name (`.loc` column lookup; the detectors
return a name drawn from the list, and pandas resolves the first occurrence
for unique labels, the only case the source relies on). -/
def colIdx (cols : List String) (c : String) : Nat :=
  (cols.findIdx? (fun x => x == c)).getD 0

/-- One iteration of the generation loop (lines 612-647) for a (plant, file)
pair: resolve the date label, load the table (both reads failing aborts the
run, as in the source where the fallback read is unprotected), match the
plant in column 0, read and format the detected metric column, and attach the
registry state and region. -/
def genRecord (mn : String) (fy : Nat) (plant : String) (f : SFile) :
    Except Unit RawRow :=
  let lab := format_date_label (get_date_from_generation_file f mn fy) mn fy
  let dateLabel := match lab.1 with
    | some l => l
    | none => (splitextStem f.name.toList).asString
  match load_generation_table f with
  | .error e => .error e
  | .ok fr0 =>
    let fr := stripCols fr0
    let series := (colAt fr 0).map cellStr
    let value :=
      match find_best_match_index (series.map String.toList) plant.toList with
      | some i =>
        match detect_generation_col fr.cols with
        | some col => format_num (cellAt fr i (colIdx fr.cols col))
        | none => ""
      | none => ""
    let sr := plantLookup plant
    .ok (RawRow.mk dateLabel lab.2 sr.1 plant sr.2 value)

/-- One iteration of the coal loop (lines 651-704): detected header row with
row-0 fallback, plant column by the `Thermal`/`Station` keyword with a
column-0 fallback, metric via `detect_coal_col`. -/
def coalRecord (mn : String) (fy : Nat) (plant : String) (f : SFile) :
    Except Unit RawRow :=
  let lab := format_date_label (get_date_from_coal_file f mn fy) mn fy
  let dateLabel := match lab.1 with
    | some l => l
    | none => (splitextStem f.name.toList).asString
  let hdr := detect_coal_header f
  match (match f.read (some hdr) none with
         | .ok fr => Except.ok fr
         | .error _ => f.read (some 0) none) with
  | .error e => .error e
  | .ok fr0 =>
    let fr := stripCols fr0
    let plantCols := fr.cols.filter
      (fun c => containsStr c.toList "Thermal" || containsStr c.toList "Station")
    let value :=
      match plantCols with
      | pc :: _ =>
        let series := (colAt fr (colIdx fr.cols pc)).map cellStr
        (match find_best_match_index (series.map String.toList) plant.toList with
         | some i =>
           match detect_coal_col fr.cols with
           | some cc => format_num (cellAt fr i (colIdx fr.cols cc))
           | none => ""
         | none => "")
      | [] =>
        if 1 ≤ fr.cols.length then
          let series := (colAt fr 0).map cellStr
          (match find_best_match_index (series.map String.toList) plant.toList with
           | some i =>
             match detect_coal_col fr.cols with
             | some cc => format_num (cellAt fr i (colIdx fr.cols cc))
             | none => ""
           | none => "")
        else ""
    let sr := plantLookup plant
    .ok (RawRow.mk dateLabel lab.2 sr.1 plant sr.2 value)

/-- Sorting and date-column formatting of a result table (lines 712-738):
sort by sortable date then plant, render the date column from the sortable
date when present and from the label otherwise, and keep the display
columns. -/
def finalizeRows (recs : List RawRow) : List FinalRow :=
  (insertionSort rowLe recs).map (fun r =>
    FinalRow.mk
      (match r.dateObj with
       | some d => fmtDMYslash d
       | none => r.dateLabel)
      r.state r.plant r.region r.value)

/-- The registry filter (lines 743-747): keep only rows whose plant is a
registry key. -/
def registryFilter (rows : List FinalRow) : List FinalRow :=
  rows.filter (fun r => allowed_plants.contains r.plant)

/-- `pd.merge(gen, coal[[Date, Thermal Plant, coal]], on=[Date, Thermal
Plant], how=left)` (lines 757-771): every generation row appears, joined with
each coal row sharing its (date, plant) key, or with a missing coal value
(`NaN`) when none does. -/
def mergeLeft (gen coal : List FinalRow) : List MergedRow :=
  gen.flatMap (fun g =>
    match coal.filter (fun c => c.date == g.date && c.plant == g.plant) with
    | [] => [MergedRow.mk g.date g.state g.plant g.region g.value none]
    | ms => ms.map (fun c => MergedRow.mk g.date g.state g.plant g.region g.value (some c.value)))

/-- The coal cell of the serialized merged export: `to_excel` writes `NaN`
as an empty cell. -/
def mergedCoalCell (m : MergedRow) : String :=
  m.coalVal.getD ""

/-- The whole processing run (lines 601-771): files sorted by name, one raw
row per (selected plant, file) pair per stream, each stream sorted, formatted
and filtered to the registry, and the generation stream left-joined with the
coal stream. -/
def run_pipeline (mn : String) (fy : Nat) (selGen selCoal : List String)
    (genFiles coalFiles : List SFile) :
    Except Unit (List FinalRow × List FinalRow × List MergedRow) :=
  let gfs := insertionSort (fun a b : SFile => decide (a.name ≤ b.name)) genFiles
  let cfs := insertionSort (fun a b : SFile => decide (a.name ≤ b.name)) coalFiles
  match (selGen.flatMap (fun p => gfs.map (fun f => (p, f)))).mapM
      (fun pf => genRecord mn fy pf.1 pf.2) with
  | .error e => .error e
  | .ok genRaw =>
    match (selCoal.flatMap (fun p => cfs.map (fun f => (p, f)))).mapM
        (fun pf => coalRecord mn fy pf.1 pf.2) with
    | .error e => .error e
    | .ok coalRaw =>
      let genF := registryFilter (finalizeRows genRaw)
      let coalF := registryFilter (finalizeRows coalRaw)
      .ok (genF, coalF, mergeLeft genF coalF)

/-- The matcher as the claim text literally states it (spec-side, for
comparison with `find_best_match_index`): the exact tier is bare equality of
normalized labels with the normalized target, and the substring tier does not
require the normalized target to be non-empty; the fuzzy tier is as in the
code. -/
def find_best_match_claim (labels : List (List Char)) (plant : List Char) :
    Option Nat :=
  if labels = [] then none
  else
    let nt := normalize_name plant
    let cands := labels.map normalize_name
    match cands.findIdx? (fun c => c == nt) with
    | some i => some i
    | none =>
      match cands.findIdx? (fun c =>
          decide (nt <:+: c) || (decide (c <:+: nt) && !(c == []))) with
      | some i => some i
      | none =>
        let p := scanFuzzy nt cands 0 0 none
        if 11 / 20 ≤ p.1 then p.2 else none

/-- The generation-table load as the claim text states it (spec-side): a raw,
header-less fallback. -/
def load_generation_table_claim (f : SFile) : Except Unit Frame :=
  match f.read (some 3) none with
  | .ok fr => .ok fr
  | .error _ => f.read none none

/-- A generation file named `Gen_07.xlsx` whose readable region holds no date
signal at all. -/
def fileGen07 : SFile :=
  SFile.mk "Gen_07.xlsx" (fun _ _ => .ok (Frame.mk [] []))

/-- The same dateless file but named `Gen-07.xlsx`. -/
def fileGen07dash : SFile :=
  SFile.mk "Gen-07.xlsx" (fun _ _ => .ok (Frame.mk [] []))

/-- A file whose every read raises. -/
def fileAlwaysError : SFile :=
  SFile.mk "bad.xlsx" (fun _ _ => .error ())

/-- A probe file that fails the header-3 read and reports back which other
header argument it was read with. -/
def fileHeaderProbe : SFile :=
  SFile.mk "probe.xlsx" (fun h _ =>
    if h = some 3 then .error ()
    else .ok (Frame.mk [match h with
      | some k => toString k
      | none => "raw"] []))

/-- A readable file with an empty grid. -/
def fileEmptyOk : SFile :=
  SFile.mk "blank.xlsx" (fun _ _ => .ok (Frame.mk [] []))

/-- The characters that can appear in a normalizer output: lowercase ASCII
letters, digits, and the space. -/
def goodChar (c : Char) : Bool :=
  (97 ≤ c.toNat && c.toNat ≤ 122) || (48 ≤ c.toNat && c.toNat ≤ 57) || c = ' '

/-- Adjacent characters are not both whitespace (the shape of a string with
no collapsible run). -/
def noSpacePair (a b : Char) : Prop :=
  ¬(pyIsSpace a = true ∧ pyIsSpace b = true)

/-- A hit of the matcher's exact tier: a non-empty normalized label equal to
the normalized target. -/
abbrev exactHit (nt c : List Char) : Prop :=
  c ≠ [] ∧ c = nt

/-- A hit of the matcher's substring tier: a non-empty normalized label
containing the non-empty normalized target, or itself contained in the
normalized target. -/
abbrev subHit (nt c : List Char) : Prop :=
  c ≠ [] ∧ ((nt ≠ [] ∧ nt <:+: c) ∨ (c <:+: nt ∧ c ≠ []))

/-! Theorems.  First the character-level toolkit, then the structural lemmas
about the normalizer stages, then the claims. -/

theorem charToNat_ofNat {n : Nat} (h : n < 55296) : (Char.ofNat n).toNat = n := by
  rw [Char.ofNat, dif_pos (Or.inl h), Char.ofNatAux]
  simp [Char.toNat, UInt32.toNat]

theorem ne_of_toNat_ne {a b : Char} (h : a.toNat ≠ b.toNat) : a ≠ b :=
  fun he => h (congrArg _ he)

theorem toLower_eq_self {c : Char} (h : ¬(65 ≤ c.toNat ∧ c.toNat ≤ 90)) :
    Char.toLower c = c := by
  rw [Char.toLower, if_neg (by omega)]

theorem toLower_toNat_of_upper {c : Char} (h : 65 ≤ c.toNat ∧ c.toNat ≤ 90) :
    (Char.toLower c).toNat = c.toNat + 32 := by
  rw [Char.toLower, if_pos (by omega), charToNat_ofNat (by omega)]

theorem pyIsSpace_toNat {c : Char} (h : pyIsSpace c = true) :
    c.toNat = 32 ∨ c.toNat = 9 ∨ c.toNat = 10 ∨ c.toNat = 13 ∨
      c.toNat = 11 ∨ c.toNat = 12 := by
  simp only [pyIsSpace, Bool.or_eq_true, decide_eq_true_eq] at h
  rcases h with ((((h | h) | h) | h) | h) | h <;> subst h <;> simp

theorem goodChar_cases {c : Char} (h : goodChar c = true) :
    (97 ≤ c.toNat ∧ c.toNat ≤ 122) ∨ (48 ≤ c.toNat ∧ c.toNat ≤ 57) ∨ c = ' ' := by
  simp only [goodChar, Bool.or_eq_true, Bool.and_eq_true, decide_eq_true_eq] at h
  tauto

theorem gc_toLower_fix {c : Char} (h : goodChar c = true) : Char.toLower c = c := by
  rcases goodChar_cases h with h1 | h1 | h1
  · exact toLower_eq_self (by omega)
  · exact toLower_eq_self (by omega)
  · subst h1; rfl

theorem gc_of_alnum_toLower {c : Char} (h : isAlnumAscii c = true) :
    goodChar (Char.toLower c) = true := by
  simp only [isAlnumAscii, Bool.or_eq_true, Bool.and_eq_true, decide_eq_true_eq] at h
  simp only [goodChar, Bool.or_eq_true, Bool.and_eq_true, decide_eq_true_eq]
  rcases h with (h1 | h1) | h1
  · have := @toLower_toNat_of_upper c (by omega)
    exact Or.inl (Or.inl (by omega))
  · rw [toLower_eq_self (by omega)]
    exact Or.inl (Or.inl (by omega))
  · rw [toLower_eq_self (by omega)]
    exact Or.inl (Or.inr (by omega))

theorem gc_space {c : Char} (h : goodChar c = true) (hs : pyIsSpace c = true) :
    c = ' ' := by
  rcases goodChar_cases h with h1 | h1 | h1
  · rcases pyIsSpace_toNat hs with h2 | h2 | h2 | h2 | h2 | h2 <;> omega
  · rcases pyIsSpace_toNat hs with h2 | h2 | h2 | h2 | h2 | h2 <;> omega
  · exact h1

theorem gc_punct {c : Char} (h : goodChar c = true) :
    (isAlnumAscii c || pyIsSpace c) = true := by
  rcases goodChar_cases h with h1 | h1 | h1
  · simp only [isAlnumAscii, Bool.or_eq_true, Bool.and_eq_true, decide_eq_true_eq]
    left; left; right; omega
  · simp only [isAlnumAscii, Bool.or_eq_true, Bool.and_eq_true, decide_eq_true_eq]
    left; right; omega
  · subst h1; rfl

theorem gc_not_amp {c : Char} (h : goodChar c = true) : c ≠ '&' := by
  intro he; subst he; exact absurd h (by decide)

theorem gc_not_lparen {c : Char} (h : goodChar c = true) : c ≠ '(' := by
  intro he; subst he; exact absurd h (by decide)

theorem isPrefixOf_toItf : ∀ (pat l : List Char), pat.isPrefixOf l = true → ∃ t, pat ++ t = l := by
  intro pat
  induction pat with
  | nil => intro l _; exact ⟨l, rfl⟩
  | cons a as ih =>
    intro l h
    match l, h with
    | b :: bs, h =>
      simp only [List.isPrefixOf_cons₂, Bool.and_eq_true, beq_iff_eq] at h
      obtain ⟨t, ht⟩ := ih bs h.2
      exact ⟨t, by rw [List.cons_append, ht, h.1]⟩

theorem replaceFuel_eq_self (pat rep : List Char) (hne : pat ≠ []) :
    ∀ fuel s, ¬ pat <:+: s → replaceFuel pat rep fuel s = s := by
  intro fuel
  induction fuel with
  | zero => intro s _; rfl
  | succ n ih =>
    intro s hni
    match s with
    | [] => rfl
    | c :: cs =>
      have hp : ¬ (pat.isPrefixOf (c :: cs) = true) := by
        intro hp
        obtain ⟨t, ht⟩ := isPrefixOf_toItf pat (c :: cs) hp
        exact hni ⟨[], t, by simpa using ht⟩
      rw [replaceFuel, if_neg hp, ih cs (fun h => hni (List.infix_cons h))]

theorem replaceList_eq_self {pat rep s : List Char} (hni : ¬ pat <:+: s) :
    replaceList pat rep s = s := by
  by_cases hne : pat = []
  · simp [replaceList, hne]
  · rw [replaceList, if_neg hne]
    exact replaceFuel_eq_self pat rep hne s.length s hni

theorem stripParensFuel_eq_self : ∀ fuel s, '(' ∉ s → stripParensFuel fuel s = s := by
  intro fuel
  induction fuel with
  | zero => intro s _; rfl
  | succ n ih =>
    intro s hm
    match s with
    | [] => rfl
    | c :: cs =>
      have hc : ¬ (c = '(') := fun h => hm (h ▸ List.mem_cons_self c cs)
      rw [stripParensFuel, if_neg hc, ih cs (fun h => hm (List.mem_cons_of_mem c h))]

theorem stripParens_eq_self {s : List Char} (hm : '(' ∉ s) : stripParens s = s :=
  stripParensFuel_eq_self _ s hm

theorem mem_collapseWs : ∀ s, ∀ c ∈ collapseWs s, c = ' ' ∨ (c ∈ s ∧ pyIsSpace c = false) := by
  intro s
  induction s using collapseWs.induct with
  | case1 => intro c hc; simp [collapseWs] at hc
  | case2 d hd =>
    intro c hc
    simp [collapseWs, hd] at hc
    exact Or.inl hc
  | case3 d hd =>
    intro c hc
    simp [collapseWs, hd] at hc
    subst hc
    exact Or.inr ⟨List.mem_singleton_self _, by simpa using hd⟩
  | case4 a b cs hab ih =>
    intro c hc
    rw [collapseWs, if_pos hab] at hc
    rcases ih c hc with h | ⟨h1, h2⟩
    · exact Or.inl h
    · exact Or.inr ⟨List.mem_cons_of_mem a h1, h2⟩
  | case5 a b cs hab ih =>
    intro c hc
    rw [collapseWs, if_neg hab] at hc
    rcases List.mem_cons.mp hc with h | h
    · by_cases ha : pyIsSpace a
      · simp [ha] at h; exact Or.inl h
      · simp [ha] at h; exact Or.inr ⟨h ▸ List.mem_cons_self a _, h ▸ (by simpa using ha)⟩
    · rcases ih c h with h' | ⟨h1, h2⟩
      · exact Or.inl h'
      · exact Or.inr ⟨List.mem_cons_of_mem a h1, h2⟩

theorem collapseWs_cons_not_space {d : Char} (cs : List Char) (hd : pyIsSpace d = false) :
    collapseWs (d :: cs) = d :: collapseWs cs := by
  match cs with
  | [] => simp [collapseWs, hd]
  | e :: cs2 =>
    rw [collapseWs, if_neg (by simp [hd]), if_neg (by simp [hd])]

theorem chain'_collapseWs : ∀ s, List.Chain' noSpacePair (collapseWs s) := by
  intro s
  induction s using collapseWs.induct with
  | case1 => simp [collapseWs]
  | case2 d hd => rw [collapseWs, if_pos hd]; exact List.chain'_singleton _
  | case3 d hd => rw [collapseWs, if_neg hd]; exact List.chain'_singleton _
  | case4 a b cs hab ih => rw [collapseWs, if_pos hab]; exact ih
  | case5 a b cs hab ih =>
    rw [collapseWs, if_neg hab]
    refine List.chain'_cons'.mpr ⟨?_, ih⟩
    intro y hy
    by_cases hb : pyIsSpace b
    · have ha : pyIsSpace a = false := by
        cases hsa : pyIsSpace a
        · rfl
        · exact absurd (by simp [hsa, hb]) hab
      rw [if_neg (by simp [ha])]
      exact fun hpair => by simp [ha] at hpair
    · rw [collapseWs_cons_not_space cs (by simpa using hb)] at hy
      simp only [List.head?_cons, Option.mem_def, Option.some.injEq] at hy
      subst hy
      intro hpair
      simp [hb] at hpair

theorem collapseWs_eq_self :
    ∀ s, (∀ c ∈ s, pyIsSpace c = true → c = ' ') → List.Chain' noSpacePair s →
      collapseWs s = s := by
  intro s
  induction s using collapseWs.induct with
  | case1 => intro _ _; rfl
  | case2 d hd =>
    intro hall _
    rw [collapseWs, if_pos hd, hall d (List.mem_singleton_self d) hd]
  | case3 d hd =>
    intro _ _
    rw [collapseWs, if_neg hd]
  | case4 a b cs hab ih =>
    intro _ hch
    exact absurd (by
      have := (List.chain'_cons'.mp hch).1 b (by simp)
      simp only [noSpacePair] at this
      cases hsa : pyIsSpace a
      · simpa [hsa] using hab
      · cases hsb : pyIsSpace b
        · simpa [hsa, hsb] using hab
        · exact absurd ⟨hsa, hsb⟩ this) (fun h : False => h)
  | case5 a b cs hab ih =>
    intro hall hch
    rw [collapseWs, if_neg hab]
    have htail := ih (fun c hc hsp => hall c (List.mem_cons_of_mem a hc) hsp)
      (List.chain'_cons'.mp hch).2
    rw [htail]
    by_cases hsa : pyIsSpace a
    · rw [if_pos (by simpa using hsa), hall a (List.mem_cons_self a _) hsa]
    · rw [if_neg (by simpa using hsa)]

theorem dropTrailingP_isPre (p : Char → Bool) : ∀ s, dropTrailingP p s <+: s := by
  intro s
  induction s with
  | nil => exact ⟨[], rfl⟩
  | cons c cs ih =>
    rw [dropTrailingP]
    by_cases h : dropTrailingP p cs = [] ∧ p c = true
    · rw [if_pos (by simp [h.1, h.2])]
      exact ⟨c :: cs, rfl⟩
    · rw [if_neg (by intro hb; simp only [Bool.and_eq_true, decide_eq_true_eq] at hb; exact h hb)]
      obtain ⟨t, ht⟩ := ih
      exact ⟨t, by rw [List.cons_append, ht]⟩

theorem getLast?_dropTrailingP (p : Char → Bool) :
    ∀ s c, (dropTrailingP p s).getLast? = some c → p c = false := by
  intro s
  induction s with
  | nil => intro c hc; simp [dropTrailingP] at hc
  | cons d cs ih =>
    intro c hc
    rw [dropTrailingP] at hc
    by_cases h : dropTrailingP p cs = [] ∧ p d = true
    · rw [if_pos (by simp [h.1, h.2])] at hc
      simp at hc
    · rw [if_neg (by intro hb; simp only [Bool.and_eq_true, decide_eq_true_eq] at hb; exact h hb)] at hc
      cases hr : dropTrailingP p cs with
      | nil =>
        rw [hr] at hc
        have hcd : d = c := by simpa using hc
        cases hp : p d
        · exact hcd ▸ hp
        · exact absurd ⟨hr, hp⟩ h
      | cons x xs =>
        rw [hr] at hc
        rw [List.getLast?_cons_cons] at hc
        exact ih c (hr ▸ hc)

theorem dropTrailingP_eq_self (p : Char → Bool) :
    ∀ s, (∀ c, s.getLast? = some c → p c = false) → dropTrailingP p s = s := by
  intro s
  induction s with
  | nil => intro _; rfl
  | cons c cs ih =>
    intro hl
    rw [dropTrailingP]
    match cs, ih with
    | [], _ =>
      have : p c = false := hl c (by simp)
      rw [if_neg (by simp [this]), dropTrailingP]
    | d :: cs2, ih =>
      have htail : dropTrailingP p (d :: cs2) = d :: cs2 :=
        ih (fun x hx => hl x (by rw [List.getLast?_cons_cons]; exact hx))
      rw [htail, if_neg (by simp)]

theorem head?_dropWhile (p : Char → Bool) :
    ∀ (s : List Char) (c : Char), (s.dropWhile p).head? = some c → p c = false := by
  intro s
  induction s with
  | nil => intro c hc; simp at hc
  | cons d cs ih =>
    intro c hc
    rw [List.dropWhile_cons] at hc
    by_cases hd : p d
    · rw [if_pos hd] at hc
      exact ih c hc
    · rw [if_neg hd] at hc
      simp only [List.head?_cons, Option.some.injEq] at hc
      subst hc
      simpa using hd

theorem dropWhile_eq_self_of_head (p : Char → Bool) (s : List Char)
    (h : ∀ c, s.head? = some c → p c = false) : s.dropWhile p = s := by
  match s with
  | [] => rfl
  | c :: cs => rw [List.dropWhile_cons, if_neg (by simp [h c rfl])]

theorem head?_of_isPre {l₁ l₂ : List Char} (h : l₁ <+: l₂) {c : Char}
    (hc : l₁.head? = some c) : l₂.head? = some c := by
  obtain ⟨t, ht⟩ := h
  subst ht
  match l₁, hc with
  | x :: xs, hc => simpa using hc

theorem mem_stripEnds {s : List Char} {c : Char} (h : c ∈ stripEnds s) : c ∈ s := by
  have h1 : c ∈ (s.dropWhile pyIsSpace) :=
    ((dropTrailingP_isPre pyIsSpace _).sublist).mem h
  exact (List.dropWhile_sublist pyIsSpace).mem h1

theorem head?_stripEnds {s : List Char} {c : Char} (h : (stripEnds s).head? = some c) :
    pyIsSpace c = false :=
  head?_dropWhile pyIsSpace s c (head?_of_isPre (dropTrailingP_isPre pyIsSpace _) h)

theorem getLast?_stripEnds {s : List Char} {c : Char} (h : (stripEnds s).getLast? = some c) :
    pyIsSpace c = false :=
  getLast?_dropTrailingP pyIsSpace _ c h

theorem chain'_dropWhile {p : Char → Bool} :
    ∀ s : List Char, List.Chain' noSpacePair s → List.Chain' noSpacePair (s.dropWhile p) := by
  intro s
  induction s with
  | nil => intro _; simp
  | cons c cs ih =>
    intro h
    rw [List.dropWhile_cons]
    by_cases hc : p c
    · rw [if_pos hc]
      exact ih (List.chain'_cons'.mp h).2
    · rw [if_neg hc]
      exact h

theorem head?_dropTrailingP (p : Char → Bool) :
    ∀ s : List Char, dropTrailingP p s = [] ∨ (dropTrailingP p s).head? = s.head? := by
  intro s
  match s with
  | [] => exact Or.inl rfl
  | c :: cs =>
    rw [dropTrailingP]
    by_cases h : dropTrailingP p cs = [] ∧ p c = true
    · rw [if_pos (by simp [h.1, h.2])]
      exact Or.inl rfl
    · rw [if_neg (by intro hb; simp only [Bool.and_eq_true, decide_eq_true_eq] at hb; exact h hb)]
      exact Or.inr (by simp)

theorem chain'_dropTrailingP (p : Char → Bool) :
    ∀ s : List Char, List.Chain' noSpacePair s → List.Chain' noSpacePair (dropTrailingP p s) := by
  intro s
  induction s with
  | nil => intro _; simp [dropTrailingP]
  | cons c cs ih =>
    intro h
    rw [dropTrailingP]
    by_cases hb : dropTrailingP p cs = [] ∧ p c = true
    · rw [if_pos (by simp [hb.1, hb.2])]
      simp
    · rw [if_neg (by intro hq; simp only [Bool.and_eq_true, decide_eq_true_eq] at hq; exact hb hq)]
      refine List.chain'_cons'.mpr ⟨?_, ih (List.chain'_cons'.mp h).2⟩
      intro y hy
      rcases head?_dropTrailingP p cs with hnil | hhd
      · rw [hnil] at hy
        simp at hy
      · rw [hhd] at hy
        exact (List.chain'_cons'.mp h).1 y hy

theorem chain'_stripEnds {s : List Char} (h : List.Chain' noSpacePair s) :
    List.Chain' noSpacePair (stripEnds s) :=
  chain'_dropTrailingP pyIsSpace _ (chain'_dropWhile _ h)

theorem map_id_of_mem {f : Char → Char} : ∀ l : List Char, (∀ c ∈ l, f c = c) → l.map f = l := by
  intro l
  induction l with
  | nil => intro _; rfl
  | cons c cs ih =>
    intro h
    rw [List.map_cons, h c (List.mem_cons_self c cs), ih (fun x hx => h x (List.mem_cons_of_mem c hx))]

theorem pyIsSpace_toLower (c : Char) : pyIsSpace (Char.toLower c) = pyIsSpace c := by
  by_cases hc : 65 ≤ c.toNat ∧ c.toNat ≤ 90
  · have hl := toLower_toNat_of_upper hc
    have h1 : pyIsSpace (Char.toLower c) = false := by
      cases hps : pyIsSpace (Char.toLower c)
      · rfl
      · exfalso; rcases pyIsSpace_toNat hps with h | h | h | h | h | h <;> omega
    have h2 : pyIsSpace c = false := by
      cases hps : pyIsSpace c
      · rfl
      · exfalso; rcases pyIsSpace_toNat hps with h | h | h | h | h | h <;> omega
    rw [h1, h2]
  · rw [toLower_eq_self hc]


theorem normalize_mem_good (l : List Char) : ∀ c ∈ normalize_name l, goodChar c = true := by
  intro c hc
  simp only [normalize_name] at hc
  obtain ⟨c0, hc0, rfl⟩ := List.mem_map.mp hc
  have h1 := mem_stripEnds hc0
  rcases mem_collapseWs _ _ h1 with h | ⟨h2, h3⟩
  · subst h; decide
  · obtain ⟨c1, _, hpc⟩ := List.mem_map.mp h2
    by_cases hcl : (isAlnumAscii c1 || pyIsSpace c1) = true
    · rw [if_pos hcl] at hpc
      subst hpc
      rcases Bool.or_eq_true_iff.mp hcl with hA | hS
      · exact gc_of_alnum_toLower hA
      · exact absurd hS (by simp [h3])
    · rw [if_neg hcl] at hpc
      subst hpc
      decide

theorem normalize_chain (l : List Char) :
    List.Chain' noSpacePair (normalize_name l) := by
  simp only [normalize_name]
  rw [List.chain'_map]
  refine (chain'_stripEnds (chain'_collapseWs _)).imp ?_
  intro a b hab
  simp only [noSpacePair, pyIsSpace_toLower] at *
  exact hab

theorem normalize_head (l : List Char) {c : Char}
    (h : (normalize_name l).head? = some c) : pyIsSpace c = false := by
  simp only [normalize_name] at h
  rw [List.head?_map] at h
  obtain ⟨c0, hc0, hlc⟩ := Option.map_eq_some'.mp h
  rw [← hlc, pyIsSpace_toLower]
  exact head?_stripEnds hc0

theorem normalize_last (l : List Char) {c : Char}
    (h : (normalize_name l).getLast? = some c) : pyIsSpace c = false := by
  simp only [normalize_name] at h
  rw [List.getLast?_map] at h
  obtain ⟨c0, hc0, hlc⟩ := Option.map_eq_some'.mp h
  rw [← hlc, pyIsSpace_toLower]
  exact getLast?_stripEnds hc0

theorem not_single_of_good {s : List Char} (hgood : ∀ c ∈ s, goodChar c = true)
    {a : Char} (ha : goodChar a = false) : ¬ [a] <:+: s := by
  intro hi
  have hm : a ∈ s := List.singleton_sublist.mp hi.sublist
  rw [hgood a hm] at ha
  exact absurd ha (by decide)

/-- C4 (amended): the normalizer is idempotent on every input whose
normalized form contains none of the abbreviation patterns `stps`, `station`,
`power limited` as a substring; the claim's unrestricted idempotence fails
because the literal substitutions run before lowercasing, so a second pass can
fire on text the first pass only lowercased. -/
theorem normalize_second_pass (l : List Char)
    (h1 : ¬ "stps".toList <:+: normalize_name l)
    (h2 : ¬ "station".toList <:+: normalize_name l)
    (h3 : ¬ "power limited".toList <:+: normalize_name l) :
    normalize_name (normalize_name l) = normalize_name l := by
  have hgood := normalize_mem_good l
  have hchain := normalize_chain l
  have e1 : replaceList ['&'] (" and ".toList) (normalize_name l) = normalize_name l :=
    replaceList_eq_self (not_single_of_good hgood (by decide))
  have hnp : '(' ∉ normalize_name l := by
    intro hm
    exact absurd (hgood '(' hm) (by decide)
  have e2 : stripParens (normalize_name l) = normalize_name l := stripParens_eq_self hnp
  have e3 : replaceList ("stps".toList) ("tps".toList) (normalize_name l) = normalize_name l :=
    replaceList_eq_self h1
  have e4 : replaceList ("station".toList) ("stn".toList) (normalize_name l) = normalize_name l :=
    replaceList_eq_self h2
  have e5 : replaceList ("power limited".toList) ("power".toList) (normalize_name l) =
      normalize_name l :=
    replaceList_eq_self h3
  have e6 : (normalize_name l).map
      (fun c => if isAlnumAscii c || pyIsSpace c then c else ' ') = normalize_name l :=
    map_id_of_mem _ (fun c hc => if_pos (gc_punct (hgood c hc)))
  have e7 : collapseWs (normalize_name l) = normalize_name l :=
    collapseWs_eq_self _ (fun c hc hsp => gc_space (hgood c hc) hsp) hchain
  have e8 : stripEnds (normalize_name l) = normalize_name l := by
    rw [stripEnds, dropTrailingWs,
      dropWhile_eq_self_of_head pyIsSpace _ (fun c hc => normalize_head l hc),
      dropTrailingP_eq_self pyIsSpace _ (fun c hc => normalize_last l hc)]
  have e9 : (normalize_name l).map Char.toLower = normalize_name l :=
    map_id_of_mem _ (fun c hc => gc_toLower_fix (hgood c hc))
  calc normalize_name (normalize_name l)
      = (stripEnds (collapseWs (((replaceList ("power limited".toList) ("power".toList)
          (replaceList ("station".toList) ("stn".toList)
          (replaceList ("stps".toList) ("tps".toList)
          (stripParens (replaceList ['&'] (" and ".toList)
          (normalize_name l))))))).map
          (fun c => if isAlnumAscii c || pyIsSpace c then c else ' ')))).map Char.toLower := rfl
    _ = normalize_name l := by rw [e1, e2, e3, e4, e5, e6, e7, e8, e9]
/-- C4 counterexample: `normalize_name` is not idempotent as claimed; on
`STPS` the first pass only lowercases (the substitution `stps` to `tps` is
case-sensitive and runs before the lowercasing), and the second pass rewrites
the result again. -/
theorem normalize_not_idem_cx :
    normalize_name (normalize_name "STPS".toList) ≠ normalize_name "STPS".toList := by
  decide

/-- Witness for the amended C4 theorem at the concrete input `Panipat TPS`. -/
theorem normalize_second_pass_witness :
    (¬ "stps".toList <:+: normalize_name "Panipat TPS".toList) ∧
    (¬ "station".toList <:+: normalize_name "Panipat TPS".toList) ∧
    (¬ "power limited".toList <:+: normalize_name "Panipat TPS".toList) ∧
    normalize_name (normalize_name "Panipat TPS".toList) =
      normalize_name "Panipat TPS".toList :=
  ⟨by decide, by decide, by decide,
    normalize_second_pass _ (by decide) (by decide) (by decide)⟩

theorem scanExact_some_iff (nt : List Char) :
    ∀ (cs : List (List Char)) (i k : Nat),
      scanExact nt cs i = some k ↔
        ∃ d, d < cs.length ∧ k = i + d ∧ exactHit nt (cs.getD d []) ∧
          ∀ e < d, ¬ exactHit nt (cs.getD e []) := by
  intro cs
  induction cs with
  | nil => intro i k; simp [scanExact]
  | cons c cs ih =>
    intro i k
    rw [scanExact]
    by_cases hc : c ≠ [] ∧ c = nt
    · rw [if_pos hc]
      constructor
      · intro h
        refine ⟨0, by simp, by simpa using (Option.some_inj.mp h).symm, by simpa using hc, by omega⟩
      · rintro ⟨d, hd, hk, hP, hmin⟩
        cases d with
        | zero => simp only [Nat.add_zero] at hk; rw [hk]
        | succ d2 =>
          exact absurd (by simpa using hc) (by simpa using hmin 0 (Nat.succ_pos d2))
    · rw [if_neg hc, ih (i + 1) k]
      constructor
      · rintro ⟨d, hd, hk, hP, hmin⟩
        refine ⟨d + 1, by simpa using hd, by omega, by simpa using hP, ?_⟩
        intro e he
        cases e with
        | zero => simpa using hc
        | succ e2 => simpa using hmin e2 (by omega)
      · rintro ⟨d, hd, hk, hP, hmin⟩
        cases d with
        | zero => exact absurd (by simpa using hP) hc
        | succ d2 =>
          refine ⟨d2, by simpa using hd, by omega, by simpa using hP, ?_⟩
          intro e he
          simpa using hmin (e + 1) (by omega)

theorem scanExact_none_iff (nt : List Char) :
    ∀ (cs : List (List Char)) (i : Nat),
      scanExact nt cs i = none ↔ ∀ d < cs.length, ¬ exactHit nt (cs.getD d []) := by
  intro cs
  induction cs with
  | nil => intro i; simp [scanExact]
  | cons c cs ih =>
    intro i
    rw [scanExact]
    by_cases hc : c ≠ [] ∧ c = nt
    · rw [if_pos hc]
      simp only [reduceCtorEq, false_iff, not_forall]
      exact ⟨0, Nat.succ_pos _, not_not_intro (by simpa using hc)⟩
    · rw [if_neg hc, ih (i + 1)]
      constructor
      · intro hall d hd
        cases d with
        | zero => simpa using hc
        | succ d2 => simpa using hall d2 (by simpa using hd)
      · intro hall d hd
        simpa using hall (d + 1) (by simpa using hd)

theorem scanSub_some_iff (nt : List Char) :
    ∀ (cs : List (List Char)) (i k : Nat),
      scanSub nt cs i = some k ↔
        ∃ d, d < cs.length ∧ k = i + d ∧ subHit nt (cs.getD d []) ∧
          ∀ e < d, ¬ subHit nt (cs.getD e []) := by
  intro cs
  induction cs with
  | nil => intro i k; simp [scanSub]
  | cons c cs ih =>
    intro i k
    have hskip : ¬ subHit nt c →
        (scanSub nt cs (i + 1) = some k ↔
          ∃ d, d < (c :: cs).length ∧ k = i + d ∧ subHit nt ((c :: cs).getD d []) ∧
            ∀ e < d, ¬ subHit nt ((c :: cs).getD e [])) := by
      intro hno
      rw [ih (i + 1) k]
      constructor
      · rintro ⟨d, hd, hk, hP, hmin⟩
        refine ⟨d + 1, by simpa using hd, by omega, by simpa using hP, ?_⟩
        intro e he
        cases e with
        | zero => simpa using hno
        | succ e2 => simpa using hmin e2 (by omega)
      · rintro ⟨d, hd, hk, hP, hmin⟩
        cases d with
        | zero => exact absurd (by simpa using hP) hno
        | succ d2 =>
          refine ⟨d2, by simpa using hd, by omega, by simpa using hP, ?_⟩
          intro e he
          simpa using hmin (e + 1) (by omega)
    have hhit : subHit nt c → (some i = some k ↔
        ∃ d, d < (c :: cs).length ∧ k = i + d ∧ subHit nt ((c :: cs).getD d []) ∧
          ∀ e < d, ¬ subHit nt ((c :: cs).getD e [])) := by
      intro hyes
      constructor
      · intro h
        refine ⟨0, by simp, by simpa using (Option.some_inj.mp h).symm, by simpa using hyes, by omega⟩
      · rintro ⟨d, hd, hk, hP, hmin⟩
        cases d with
        | zero => simp only [Nat.add_zero] at hk; rw [hk]
        | succ d2 =>
          exact absurd (by simpa using hyes) (by simpa using hmin 0 (Nat.succ_pos d2))
    rw [scanSub]
    by_cases h0 : c = []
    · rw [if_pos h0]
      exact hskip (fun hs => hs.1 h0)
    · rw [if_neg h0]
      by_cases hA : nt ≠ [] ∧ nt <:+: c
      · rw [if_pos hA]
        exact hhit ⟨h0, Or.inl hA⟩
      · rw [if_neg hA]
        by_cases hB : c <:+: nt ∧ c ≠ []
        · rw [if_pos hB]
          exact hhit ⟨h0, Or.inr hB⟩
        · rw [if_neg hB]
          refine hskip ?_
          rintro ⟨hne, hor | hor⟩
          · exact hA hor
          · exact hB hor

theorem scanSub_none_iff (nt : List Char) :
    ∀ (cs : List (List Char)) (i : Nat),
      scanSub nt cs i = none ↔ ∀ d < cs.length, ¬ subHit nt (cs.getD d []) := by
  intro cs
  induction cs with
  | nil => intro i; simp [scanSub]
  | cons c cs ih =>
    intro i
    have hskip : ¬ subHit nt c →
        (scanSub nt cs (i + 1) = none ↔
          ∀ d < (c :: cs).length, ¬ subHit nt ((c :: cs).getD d [])) := by
      intro hno
      rw [ih (i + 1)]
      constructor
      · intro hall d hd
        cases d with
        | zero => simpa using hno
        | succ d2 => simpa using hall d2 (by simpa using hd)
      · intro hall d hd
        simpa using hall (d + 1) (by simpa using hd)
    rw [scanSub]
    by_cases h0 : c = []
    · rw [if_pos h0]
      exact hskip (fun hs => hs.1 h0)
    · rw [if_neg h0]
      by_cases hA : nt ≠ [] ∧ nt <:+: c
      · rw [if_pos hA]
        simp only [reduceCtorEq, false_iff, not_forall]
        exact ⟨0, Nat.succ_pos _,
          not_not_intro (by simpa using show subHit nt c from ⟨h0, Or.inl hA⟩)⟩
      · rw [if_neg hA]
        by_cases hB : c <:+: nt ∧ c ≠ []
        · rw [if_pos hB]
          simp only [reduceCtorEq, false_iff, not_forall]
          exact ⟨0, Nat.succ_pos _,
            not_not_intro (by simpa using show subHit nt c from ⟨h0, Or.inr hB⟩)⟩
        · rw [if_neg hB]
          refine hskip ?_
          rintro ⟨hne, hor | hor⟩
          · exact hA hor
          · exact hB hor

theorem scanFuzzy_spec (nt : List Char) :
    ∀ (cs : List (List Char)) (i : Nat) (br : ℚ) (bi : Option Nat),
      (scanFuzzy nt cs i br bi = (br, bi) ∧
        ∀ d, d < cs.length → cs.getD d [] ≠ [] → seqRatio nt (cs.getD d []) ≤ br) ∨
      (∃ d, d < cs.length ∧ cs.getD d [] ≠ [] ∧ br < seqRatio nt (cs.getD d []) ∧
        scanFuzzy nt cs i br bi = (seqRatio nt (cs.getD d []), some (i + d)) ∧
        (∀ e, e < d → cs.getD e [] ≠ [] →
          seqRatio nt (cs.getD e []) < seqRatio nt (cs.getD d [])) ∧
        (∀ e, e < cs.length → cs.getD e [] ≠ [] →
          seqRatio nt (cs.getD e []) ≤ seqRatio nt (cs.getD d []))) := by
  intro cs
  induction cs with
  | nil =>
    intro i br bi
    left
    exact ⟨rfl, fun d hd _ => absurd hd (Nat.not_lt_zero d)⟩
  | cons c cs ih =>
    intro i br bi
    rw [scanFuzzy]
    by_cases h0 : c = []
    · rw [if_pos h0]
      rcases ih (i + 1) br bi with ⟨heq, hb⟩ | ⟨d, hd, hne, hgt, heq, hstrict, hmax⟩
      · left
        refine ⟨heq, ?_⟩
        intro d hd hne
        cases d with
        | zero => exact absurd h0 (by simpa using hne)
        | succ d2 => simpa using hb d2 (by simpa using hd) (by simpa using hne)
      · right
        refine ⟨d + 1, by simpa using hd, by simpa using hne, hgt, ?_, ?_, ?_⟩
        · have hsh : i + 1 + d = i + (d + 1) := by omega
          rw [heq, hsh]
          simp
        · intro e he hene
          cases e with
          | zero => exact absurd h0 (by simpa using hene)
          | succ e2 =>
            simpa using hstrict e2 (by omega) (by simpa using hene)
        · intro e he hene
          cases e with
          | zero => exact absurd h0 (by simpa using hene)
          | succ e2 =>
            simpa using hmax e2 (by simpa using he) (by simpa using hene)
    · rw [if_neg h0]
      by_cases hlt : br < seqRatio nt c
      · rw [if_pos hlt]
        rcases ih (i + 1) (seqRatio nt c) (some i) with
          ⟨heq, hb⟩ | ⟨d, hd, hne, hgt, heq, hstrict, hmax⟩
        · right
          refine ⟨0, Nat.succ_pos _, by simpa using h0, by simpa using hlt, ?_, ?_, ?_⟩
          · simpa using heq
          · intro e he _
            exact absurd he (Nat.not_lt_zero e)
          · intro e he hene
            cases e with
            | zero => simp
            | succ e2 =>
              simpa using hb e2 (by simpa using he) (by simpa using hene)
        · right
          refine ⟨d + 1, by simpa using hd, by simpa using hne,
            lt_trans hlt (by simpa using hgt), ?_, ?_, ?_⟩
          · have hsh : i + 1 + d = i + (d + 1) := by omega
            rw [heq, hsh]
            simp
          · intro e he hene
            cases e with
            | zero => simpa using hgt
            | succ e2 =>
              simpa using hstrict e2 (by omega) (by simpa using hene)
          · intro e he hene
            cases e with
            | zero => simpa using le_of_lt hgt
            | succ e2 =>
              simpa using hmax e2 (by simpa using he) (by simpa using hene)
      · rw [if_neg hlt]
        have hle : seqRatio nt c ≤ br := le_of_not_lt hlt
        rcases ih (i + 1) br bi with ⟨heq, hb⟩ | ⟨d, hd, hne, hgt, heq, hstrict, hmax⟩
        · left
          refine ⟨heq, ?_⟩
          intro d hd hne
          cases d with
          | zero => simpa using hle
          | succ d2 => simpa using hb d2 (by simpa using hd) (by simpa using hne)
        · right
          refine ⟨d + 1, by simpa using hd, by simpa using hne, hgt, ?_, ?_, ?_⟩
          · have hsh : i + 1 + d = i + (d + 1) := by omega
            rw [heq, hsh]
            simp
          · intro e he hene
            cases e with
            | zero => simpa using lt_of_le_of_lt hle hgt
            | succ e2 =>
              simpa using hstrict e2 (by omega) (by simpa using hene)
          · intro e he hene
            cases e with
            | zero => simpa using le_trans hle (le_of_lt hgt)
            | succ e2 =>
              simpa using hmax e2 (by simpa using he) (by simpa using hene)

theorem matchSum_nil_left (b : List Char) : matchSum [] b = 0 := by
  have hflm : findLongestMatch [] b 0 0 0 b.length = (0, 0, 0) := by
    simp [findLongestMatch, flmOuter, extLeft, extRightFuel]
  rw [matchSum]
  simp only [List.length_nil, Nat.zero_add]
  rw [matchSumGo, hflm]
  simp

theorem seqRatio_nil_left {b : List Char} (hb : b ≠ []) : seqRatio [] b = 0 := by
  rw [seqRatio]
  simp only [List.length_nil, Nat.zero_add]
  rw [if_neg (by simpa using hb), matchSum_nil_left]
  simp

theorem fbmi_characterization (labels : List (List Char)) (plant : List Char) (k : Nat) :
    find_best_match_index labels plant = some k ↔
      (k < labels.length ∧
        exactHit (normalize_name plant) ((labels.map normalize_name).getD k []) ∧
        ∀ e < k, ¬ exactHit (normalize_name plant) ((labels.map normalize_name).getD e [])) ∨
      ((∀ d < labels.length,
          ¬ exactHit (normalize_name plant) ((labels.map normalize_name).getD d [])) ∧
        k < labels.length ∧
        subHit (normalize_name plant) ((labels.map normalize_name).getD k []) ∧
        ∀ e < k, ¬ subHit (normalize_name plant) ((labels.map normalize_name).getD e [])) ∨
      ((∀ d < labels.length,
          ¬ exactHit (normalize_name plant) ((labels.map normalize_name).getD d [])) ∧
        (∀ d < labels.length,
          ¬ subHit (normalize_name plant) ((labels.map normalize_name).getD d [])) ∧
        k < labels.length ∧ (labels.map normalize_name).getD k [] ≠ [] ∧
        (11 : ℚ) / 20 ≤ seqRatio (normalize_name plant) ((labels.map normalize_name).getD k []) ∧
        (∀ e < k, (labels.map normalize_name).getD e [] ≠ [] →
          seqRatio (normalize_name plant) ((labels.map normalize_name).getD e []) <
            seqRatio (normalize_name plant) ((labels.map normalize_name).getD k [])) ∧
        (∀ e < labels.length, (labels.map normalize_name).getD e [] ≠ [] →
          seqRatio (normalize_name plant) ((labels.map normalize_name).getD e []) ≤
            seqRatio (normalize_name plant) ((labels.map normalize_name).getD k []))) := by
  have hlen : (labels.map normalize_name).length = labels.length := List.length_map _ _
  simp only [find_best_match_index]
  by_cases hemp : labels = []
  · rw [if_pos hemp]
    subst hemp
    simp only [List.length_nil, Nat.not_lt_zero, false_and, and_false, false_or, or_false]
    constructor
    · intro h
      exact absurd h (by simp)
    · intro h
      rcases h with ⟨h, _⟩ | ⟨_, h, _⟩ | ⟨_, _, h, _⟩ <;> exact absurd h (Nat.not_lt_zero k)
  · rw [if_neg hemp]
    cases hE : scanExact (normalize_name plant) (labels.map normalize_name) 0 with
    | some i =>
      obtain ⟨d, hd, hi, hP, hmin⟩ :=
        (scanExact_some_iff (normalize_name plant) (labels.map normalize_name) 0 i).mp hE
      simp only [Nat.zero_add] at hi
      subst hi
      constructor
      · intro h
        have hk : k = i := (Option.some_inj.mp h).symm
        subst hk
        exact Or.inl ⟨hlen ▸ hd, hP, hmin⟩
      · intro h
        have hkd : k = i := by
          rcases h with ⟨hk, hPk, hmink⟩ | ⟨hnone, _⟩ | ⟨hnone, _⟩
          · rcases Nat.lt_trichotomy k i with hlt | heq | hgt
            · exact absurd hPk (hmin k hlt)
            · exact heq
            · exact absurd hP (hmink i hgt)
          · exact absurd hP (hnone i (hlen ▸ hd))
          · exact absurd hP (hnone i (hlen ▸ hd))
        rw [hkd]
    | none =>
      have hEnone : ∀ d < labels.length,
          ¬ exactHit (normalize_name plant) ((labels.map normalize_name).getD d []) := by
        intro d hd
        exact (scanExact_none_iff (normalize_name plant) (labels.map normalize_name) 0).mp hE d
          (hlen ▸ hd)
      cases hS : scanSub (normalize_name plant) (labels.map normalize_name) 0 with
      | some i =>
        obtain ⟨d, hd, hi, hP, hmin⟩ :=
          (scanSub_some_iff (normalize_name plant) (labels.map normalize_name) 0 i).mp hS
        simp only [Nat.zero_add] at hi
        subst hi
        constructor
        · intro h
          have hk : k = i := (Option.some_inj.mp h).symm
          subst hk
          exact Or.inr (Or.inl ⟨hEnone, hlen ▸ hd, hP, hmin⟩)
        · intro h
          have hkd : k = i := by
            rcases h with ⟨hk, hPk, _⟩ | ⟨_, hk, hPk, hmink⟩ | ⟨_, hnone, _⟩
            · exact absurd hPk (hEnone k hk)
            · rcases Nat.lt_trichotomy k i with hlt | heq | hgt
              · exact absurd hPk (hmin k hlt)
              · exact heq
              · exact absurd hP (hmink i hgt)
            · exact absurd hP (hnone i (hlen ▸ hd))
          rw [hkd]
      | none =>
        have hSnone : ∀ d < labels.length,
            ¬ subHit (normalize_name plant) ((labels.map normalize_name).getD d []) := by
          intro d hd
          exact (scanSub_none_iff (normalize_name plant) (labels.map normalize_name) 0).mp hS d
            (hlen ▸ hd)
        rcases scanFuzzy_spec (normalize_name plant) (labels.map normalize_name) 0 0 none with
          ⟨heq, hb⟩ | ⟨d, hd, hne, hgt, heq, hstrict, hmax⟩
        · rw [heq]
          rw [if_neg (by norm_num : ¬ (11 : ℚ) / 20 ≤ 0)]
          constructor
          · intro h
            exact absurd h (by simp)
          · intro h
            rcases h with ⟨hk, hPk, _⟩ | ⟨_, hk, hPk, _⟩ | ⟨_, _, hk, hkne, hth, _⟩
            · exact absurd hPk (hEnone k hk)
            · exact absurd hPk (hSnone k hk)
            · have hle := hb k (hlen ▸ hk) hkne
              exact absurd (le_trans hth hle) (by norm_num)
        · rw [heq]
          simp only [Nat.zero_add]
          by_cases hth : (11 : ℚ) / 20 ≤
              seqRatio (normalize_name plant) ((labels.map normalize_name).getD d [])
          · rw [if_pos hth]
            constructor
            · intro h
              have hk : k = d := (Option.some_inj.mp h).symm
              subst hk
              exact Or.inr (Or.inr ⟨hEnone, hSnone, hlen ▸ hd, hne, hth, hstrict,
                fun e he => hmax e (hlen ▸ he)⟩)
            · intro h
              have hkd : k = d := by
                rcases h with ⟨hk, hPk, _⟩ | ⟨_, hk, hPk, _⟩ |
                  ⟨_, _, hk, hkne, hkth, hkstrict, hkmax⟩
                · exact absurd hPk (hEnone k hk)
                · exact absurd hPk (hSnone k hk)
                · rcases Nat.lt_trichotomy k d with hlt | hq | hgt2
                  · have h1 := hstrict k hlt hkne
                    have h2 := hkmax d (by rw [← hlen]; exact hd) hne
                    exact absurd h1 (not_lt_of_le h2)
                  · exact hq
                  · have h1 := hkstrict d hgt2 hne
                    have h2 := hmax k (hlen ▸ hk) hkne
                    exact absurd h1 (not_lt_of_le h2)
              rw [hkd]
          · rw [if_neg hth]
            constructor
            · intro h
              exact absurd h (by simp)
            · intro h
              rcases h with ⟨hk, hPk, _⟩ | ⟨_, hk, hPk, _⟩ | ⟨_, _, hk, hkne, hkth, _, hkmax⟩
              · exact absurd hPk (hEnone k hk)
              · exact absurd hPk (hSnone k hk)
              · have h2 := hmax k (hlen ▸ hk) hkne
                exact absurd (le_trans hkth h2) hth

/-- C1 (amended): `find_best_match_index` applies exactly three tiers in
order.  It returns `some k` precisely when k is the lowest index whose
non-empty normalized label equals the normalized target (exact tier); failing
that, the lowest index whose non-empty normalized label contains the
non-empty normalized target or is itself contained in it (substring tier);
failing that, the row holding the strictly-first-attained maximum of the
difflib sequence-similarity ratios over all non-empty normalized labels,
accepted exactly when that ratio reaches the default threshold 11/20 = 0.55 -
and no match otherwise.  The amendment over the claim text: the exact tier
requires the label (hence the target) to be non-empty, and the substring
tier's first disjunct requires the normalized target to be non-empty, as the
code skips empty candidates and empty targets. -/
theorem find_best_match_index_three_tiers (labels : List (List Char))
    (plant : List Char) (k : Nat) :
    find_best_match_index labels plant = some k ↔
      (k < labels.length ∧
        exactHit (normalize_name plant) ((labels.map normalize_name).getD k []) ∧
        ∀ e < k, ¬ exactHit (normalize_name plant) ((labels.map normalize_name).getD e [])) ∨
      ((∀ d < labels.length,
          ¬ exactHit (normalize_name plant) ((labels.map normalize_name).getD d [])) ∧
        k < labels.length ∧
        subHit (normalize_name plant) ((labels.map normalize_name).getD k []) ∧
        ∀ e < k, ¬ subHit (normalize_name plant) ((labels.map normalize_name).getD e [])) ∨
      ((∀ d < labels.length,
          ¬ exactHit (normalize_name plant) ((labels.map normalize_name).getD d [])) ∧
        (∀ d < labels.length,
          ¬ subHit (normalize_name plant) ((labels.map normalize_name).getD d [])) ∧
        k < labels.length ∧ (labels.map normalize_name).getD k [] ≠ [] ∧
        (11 : ℚ) / 20 ≤ seqRatio (normalize_name plant) ((labels.map normalize_name).getD k []) ∧
        (∀ e < k, (labels.map normalize_name).getD e [] ≠ [] →
          seqRatio (normalize_name plant) ((labels.map normalize_name).getD e []) <
            seqRatio (normalize_name plant) ((labels.map normalize_name).getD k [])) ∧
        (∀ e < labels.length, (labels.map normalize_name).getD e [] ≠ [] →
          seqRatio (normalize_name plant) ((labels.map normalize_name).getD e []) ≤
            seqRatio (normalize_name plant) ((labels.map normalize_name).getD k []))) :=
  fbmi_characterization labels plant k

/-- C1 counterexample: on labels `["?"]` and target `"!"` (both normalize to
the empty string) the claim's literal tier description - bare equality in the
exact tier - selects index 0, while the code reports no match. -/
theorem find_best_match_claim_cx :
    find_best_match_claim ["?".toList] "!".toList = some 0 ∧
    find_best_match_index ["?".toList] "!".toList = none :=
  ⟨by with_unfolding_all decide, by with_unfolding_all decide⟩

/-- C9: in the fuzzy tier, ties break to the earliest row.  When neither the
exact nor the substring tier matches and row k attains the maximal ratio, is
at least the 0.55 threshold, and every earlier non-empty row scores strictly
below it (that is, k is the lowest index attaining the maximum - the strict
greater-than update never replaces an equal-scoring earlier best), then the
matcher returns k. -/
theorem find_best_match_fuzzy_tie (labels : List (List Char)) (plant : List Char) (k : Nat)
    (hE : ∀ d < labels.length,
      ¬ exactHit (normalize_name plant) ((labels.map normalize_name).getD d []))
    (hS : ∀ d < labels.length,
      ¬ subHit (normalize_name plant) ((labels.map normalize_name).getD d []))
    (hk : k < labels.length)
    (hne : (labels.map normalize_name).getD k [] ≠ [])
    (hth : (11 : ℚ) / 20 ≤
      seqRatio (normalize_name plant) ((labels.map normalize_name).getD k []))
    (hstrict : ∀ e < k, (labels.map normalize_name).getD e [] ≠ [] →
      seqRatio (normalize_name plant) ((labels.map normalize_name).getD e []) <
        seqRatio (normalize_name plant) ((labels.map normalize_name).getD k []))
    (hmax : ∀ e < labels.length, (labels.map normalize_name).getD e [] ≠ [] →
      seqRatio (normalize_name plant) ((labels.map normalize_name).getD e []) ≤
        seqRatio (normalize_name plant) ((labels.map normalize_name).getD k [])) :
    find_best_match_index labels plant = some k :=
  (fbmi_characterization labels plant k).mpr
    (Or.inr (Or.inr ⟨hE, hS, hk, hne, hth, hstrict, hmax⟩))

/-- Witness for the C9 tie-break theorem: against target `abcde`, the labels
`abcxx` and `xxcde` score the same fuzzy ratio 0.6, and the matcher picks
index 0. -/
theorem find_best_match_fuzzy_tie_witness :
    seqRatio (normalize_name "abcde".toList) (normalize_name "abcxx".toList) =
      seqRatio (normalize_name "abcde".toList) (normalize_name "xxcde".toList) ∧
    find_best_match_index ["abcxx".toList, "xxcde".toList] "abcde".toList = some 0 :=
  ⟨by with_unfolding_all decide,
    find_best_match_fuzzy_tie _ _ 0 (by with_unfolding_all decide)
      (by with_unfolding_all decide) (by with_unfolding_all decide)
      (by with_unfolding_all decide) (by with_unfolding_all decide)
      (by with_unfolding_all decide) (by with_unfolding_all decide)⟩

/-- C10: a target whose name normalizes to the empty string never matches:
the exact tier needs a non-empty label equal to it, the substring tier needs
a non-empty target or a candidate contained in the empty string, and every
fuzzy ratio against the empty string is 0, below the 0.55 threshold. -/
theorem find_best_match_empty_target (labels : List (List Char)) (plant : List Char)
    (h : normalize_name plant = []) :
    find_best_match_index labels plant = none := by
  cases hfind : find_best_match_index labels plant with
  | none => rfl
  | some k =>
    exfalso
    rcases (fbmi_characterization labels plant k).mp hfind with
      ⟨_, hPk, _⟩ | ⟨_, _, hPk, _⟩ | ⟨_, _, _, hkne, hth, _, _⟩
    · exact hPk.1 (hPk.2.trans h)
    · rcases hPk.2 with ⟨hnt, _⟩ | ⟨hinf, hne2⟩
      · exact hnt h
      · exact hne2 (List.infix_nil.mp (h ▸ hinf))
    · rw [h, seqRatio_nil_left hkne] at hth
      exact absurd hth (by norm_num)

/-- Witness for the C10 theorem: the purely parenthesized target `()`
normalizes to the empty string and never matches. -/
theorem find_best_match_empty_target_witness :
    normalize_name "()".toList = [] ∧
    find_best_match_index ["x".toList] "()".toList = none :=
  ⟨by decide, find_best_match_empty_target _ _ (by decide)⟩

/-- C5 counterexample: for the dateless file named `Gen_07.xlsx` with
fallback June 2024, date extraction does not produce 2024-06-07 - the
standalone-number regex finds nothing, because the underscore is a word
character and `07` is therefore not bounded by word boundaries. -/
theorem gen07_date_cx :
    get_date_from_generation_file fileGen07 "June" 2024 ≠
      some (Sum.inl (PDate.mk 2024 6 7)) := by
  decide

/-- C5 (amended): for the dateless `Gen_07.xlsx` the extraction result is
absent (None): the underscore blocks the word boundary of the standalone
1-2 digit number.  With a non-word separator, as in `Gen-07.xlsx`, the first
standalone number 07 combines with the fallback month and year into
2024-06-07 as the claim describes. -/
theorem gen07_date_amended :
    get_date_from_generation_file fileGen07 "June" 2024 = none ∧
    get_date_from_generation_file fileGen07dash "June" 2024 =
      some (Sum.inl (PDate.mk 2024 6 7)) :=
  ⟨by decide, by decide⟩

/-- C6 counterexample: the generation-table load and the claim's reading of
it (raw, header-less fallback) disagree on a file whose header-3 read fails:
the code retries with header row 0, not with no header. -/
theorem load_gen_fallback_cx :
    load_generation_table fileHeaderProbe = Except.ok (Frame.mk ["0"] []) ∧
    load_generation_table_claim fileHeaderProbe = Except.ok (Frame.mk ["raw"] []) ∧
    Frame.mk ["0"] ([] : List (List Cell)) ≠ Frame.mk ["raw"] [] :=
  ⟨rfl, rfl, by decide⟩

/-- C6 (amended): loading a generation file's table uses fixed header row 3;
if that read fails, the fallback read uses header row 0 (the first row as
header), not a raw header-less load. -/
theorem load_generation_table_spec (f : SFile) :
    (∀ fr, f.read (some 3) none = .ok fr → load_generation_table f = .ok fr) ∧
    (f.read (some 3) none = .error () → load_generation_table f = f.read (some 0) none) := by
  constructor
  · intro fr h
    rw [load_generation_table, h]
  · intro h
    rw [load_generation_table, h]

/-- Witness for the C6 amended theorem, at a file whose header-3 read
succeeds and at one whose header-3 read fails. -/
theorem load_generation_table_spec_witness :
    fileEmptyOk.read (some 3) none = Except.ok (Frame.mk [] []) ∧
    load_generation_table fileEmptyOk = Except.ok (Frame.mk [] []) ∧
    fileHeaderProbe.read (some 3) none = Except.error () ∧
    load_generation_table fileHeaderProbe = fileHeaderProbe.read (some 0) none :=
  ⟨rfl, (load_generation_table_spec fileEmptyOk).1 (Frame.mk [] []) rfl, rfl,
    (load_generation_table_spec fileHeaderProbe).2 rfl⟩

/-- C7: date extraction never raises.  In the model every outcome is a value
of `Option (PDate ⊕ Nat)` - a concrete date, a day-of-month placeholder, or
absence - and an exception while reading the spreadsheet (a failing top
read) is swallowed: both extractors then report no date found. -/
theorem get_date_read_error_none (f : SFile) (fm : String) (fy : Nat)
    (h : f.read none (some 10) = .error ()) :
    get_date_from_generation_file f fm fy = none ∧
    get_date_from_coal_file f fm fy = none := by
  constructor
  · rw [get_date_from_generation_file, h]
  · rw [get_date_from_coal_file, h]

/-- Witness for the C7 theorem at a file whose every read raises. -/
theorem get_date_read_error_none_witness :
    fileAlwaysError.read none (some 10) = Except.error () ∧
    get_date_from_generation_file fileAlwaysError "June" 2024 = none ∧
    get_date_from_coal_file fileAlwaysError "June" 2024 = none :=
  ⟨rfl, (get_date_read_error_none fileAlwaysError "June" 2024 rfl).1,
    (get_date_read_error_none fileAlwaysError "June" 2024 rfl).2⟩

theorem find?_some_idx (p : String → Bool) :
    ∀ (l : List String) (c : String),
      l.find? p = some c ↔
        ∃ i, i < l.length ∧ c = l.getD i "" ∧ p (l.getD i "") = true ∧
          ∀ j < i, p (l.getD j "") = false := by
  intro l
  induction l with
  | nil => intro c; simp
  | cons a l ih =>
    intro c
    by_cases ha : p a
    · rw [List.find?_cons_of_pos _ ha]
      constructor
      · intro h
        exact ⟨0, Nat.succ_pos _, by simpa using (Option.some_inj.mp h).symm, by simpa using ha,
          fun j hj => absurd hj (Nat.not_lt_zero j)⟩
      · rintro ⟨i, hi, hc, hP, hmin⟩
        cases i with
        | zero => rw [hc]; simp
        | succ i2 =>
          have := hmin 0 (Nat.succ_pos i2)
          rw [List.getD_cons_zero] at this
          rw [ha] at this
          exact absurd this (by simp)
    · rw [List.find?_cons_of_neg _ ha, ih c]
      constructor
      · rintro ⟨i, hi, hc, hP, hmin⟩
        refine ⟨i + 1, by simpa using hi, by simpa using hc, by simpa using hP, ?_⟩
        intro j hj
        cases j with
        | zero => simpa using ha
        | succ j2 => simpa using hmin j2 (by omega)
      · rintro ⟨i, hi, hc, hP, hmin⟩
        cases i with
        | zero =>
          rw [List.getD_cons_zero] at hP
          exact absurd hP (by simpa using ha)
        | succ i2 =>
          refine ⟨i2, by simpa using hi, by simpa using hc, by simpa using hP, ?_⟩
          intro j hj
          simpa using hmin (j + 1) (by omega)

theorem find?_none_idx (p : String → Bool) :
    ∀ l : List String, l.find? p = none ↔ ∀ i < l.length, p (l.getD i "") = false := by
  intro l
  induction l with
  | nil => simp
  | cons a l ih =>
    by_cases ha : p a
    · rw [List.find?_cons_of_pos _ ha]
      simp only [reduceCtorEq, false_iff, not_forall]
      exact ⟨0, Nat.succ_pos _, by simp [ha]⟩
    · rw [List.find?_cons_of_neg _ ha, ih]
      constructor
      · intro hall i hi
        cases i with
        | zero => simpa using ha
        | succ i2 => simpa using hall i2 (by simpa using hi)
      · intro hall i hi
        simpa using hall (i + 1) (by simpa using hi)

/-- C8: `detect_generation_col` returns the first column satisfying the
primary keyword rule (upper-cased name has `TODAY` and `ACTUAL` but neither
`APRIL` nor `TILL`); when no column does, the first column satisfying the
fallback rule (`ACTUAL`, or `DAILY` with `GEN`); and none when neither rule
matches any column.  The final conjuncts unfold the two rules into their
literal keyword conditions. -/
theorem detect_generation_col_spec (cols : List String) :
    (∀ c, detect_generation_col cols = some c ↔
      (∃ i, i < cols.length ∧ c = cols.getD i "" ∧ genColRule1 (cols.getD i "") = true ∧
        ∀ j < i, genColRule1 (cols.getD j "") = false) ∨
      ((∀ i < cols.length, genColRule1 (cols.getD i "") = false) ∧
        ∃ i, i < cols.length ∧ c = cols.getD i "" ∧ genColRule2 (cols.getD i "") = true ∧
          ∀ j < i, genColRule2 (cols.getD j "") = false)) ∧
    (detect_generation_col cols = none ↔
      (∀ i < cols.length, genColRule1 (cols.getD i "") = false) ∧
      (∀ i < cols.length, genColRule2 (cols.getD i "") = false)) ∧
    (∀ s, genColRule1 s = true ↔
      ("TODAY".toList <:+: upperList s ∧ "ACTUAL".toList <:+: upperList s ∧
        ¬ "APRIL".toList <:+: upperList s ∧ ¬ "TILL".toList <:+: upperList s)) ∧
    (∀ s, genColRule2 s = true ↔
      ("ACTUAL".toList <:+: upperList s ∨
        ("DAILY".toList <:+: upperList s ∧ "GEN".toList <:+: upperList s))) := by
  refine ⟨?_, ?_, ?_, ?_⟩
  · intro c
    rw [detect_generation_col]
    cases h1 : cols.find? genColRule1 with
    | some x =>
      have hx := (find?_some_idx genColRule1 cols x).mp h1
      constructor
      · intro h
        exact Or.inl ((Option.some_inj.mp h) ▸ hx)
      · intro h
        rcases h with ⟨i, hi, hc, hP, hmin⟩ | ⟨hnone, _⟩
        · obtain ⟨i0, hi0, hx0, hP0, hmin0⟩ := hx
          have : i = i0 := by
            rcases Nat.lt_trichotomy i i0 with hlt | heq | hgt
            · rw [hmin0 i hlt] at hP
              exact absurd hP (by simp)
            · exact heq
            · rw [hmin i0 hgt] at hP0
              exact absurd hP0 (by simp)
          rw [hc, this, ← hx0]
        · obtain ⟨i0, hi0, _, hP0, _⟩ := hx
          rw [hnone i0 hi0] at hP0
          exact absurd hP0 (by simp)
    | none =>
      have hn := (find?_none_idx genColRule1 cols).mp h1
      constructor
      · intro h
        exact Or.inr ⟨hn, (find?_some_idx genColRule2 cols c).mp h⟩
      · intro h
        rcases h with ⟨i, hi, _, hP, _⟩ | ⟨_, hex⟩
        · rw [hn i hi] at hP
          exact absurd hP (by simp)
        · exact (find?_some_idx genColRule2 cols c).mpr hex
  · rw [detect_generation_col]
    cases h1 : cols.find? genColRule1 with
    | some x =>
      have hx := (find?_some_idx genColRule1 cols x).mp h1
      simp only [reduceCtorEq, false_iff, not_and]
      intro hall _
      obtain ⟨i0, hi0, _, hP0, _⟩ := hx
      rw [hall i0 hi0] at hP0
      exact absurd hP0 (by simp)
    | none =>
      constructor
      · intro h
        exact ⟨(find?_none_idx genColRule1 cols).mp h1, (find?_none_idx genColRule2 cols).mp h⟩
      · intro h
        exact (find?_none_idx genColRule2 cols).mpr h.2
  · intro s
    simp [genColRule1, containsStr, Bool.and_eq_true]
    tauto
  · intro s
    simp [genColRule2, containsStr, Bool.and_eq_true]

theorem mem_mergeLeft {gen coal : List FinalRow} {m : MergedRow}
    (hm : m ∈ mergeLeft gen coal) :
    ∃ g ∈ gen, m.date = g.date ∧ m.plant = g.plant ∧ m.genVal = g.value ∧
      ((m.coalVal = none ∧ ∀ c ∈ coal, ¬(c.date = g.date ∧ c.plant = g.plant)) ∨
        (∃ c ∈ coal, c.date = g.date ∧ c.plant = g.plant ∧ m.coalVal = some c.value)) := by
  rw [mergeLeft] at hm
  obtain ⟨g, hg, hmem⟩ := List.mem_flatMap.mp hm
  refine ⟨g, hg, ?_⟩
  cases hf : coal.filter (fun c => c.date == g.date && c.plant == g.plant) with
  | nil =>
    rw [hf] at hmem
    simp only [List.mem_singleton] at hmem
    subst hmem
    refine ⟨rfl, rfl, rfl, Or.inl ⟨rfl, ?_⟩⟩
    intro c hc hpair
    have : c ∈ coal.filter (fun c => c.date == g.date && c.plant == g.plant) :=
      List.mem_filter.mpr ⟨hc, by simp [hpair.1, hpair.2]⟩
    rw [hf] at this
    exact absurd this (List.not_mem_nil c)
  | cons c0 cs =>
    rw [hf] at hmem
    obtain ⟨c, hcmem, hceq⟩ := List.mem_map.mp hmem
    have hcfil : c ∈ coal.filter (fun c => c.date == g.date && c.plant == g.plant) := by
      rw [hf]; exact hcmem
    obtain ⟨hcoal, hpred⟩ := List.mem_filter.mp hcfil
    simp only [Bool.and_eq_true, beq_iff_eq] at hpred
    subst hceq
    exact ⟨rfl, rfl, rfl, Or.inr ⟨c, hcoal, hpred.1, hpred.2, rfl⟩⟩

theorem mergeLeft_total {gen coal : List FinalRow} {g : FinalRow} (hg : g ∈ gen) :
    ∃ m ∈ mergeLeft gen coal, m.date = g.date ∧ m.plant = g.plant := by
  rw [mergeLeft]
  cases hf : coal.filter (fun c => c.date == g.date && c.plant == g.plant) with
  | nil =>
    refine ⟨MergedRow.mk g.date g.state g.plant g.region g.value none, ?_, rfl, rfl⟩
    exact List.mem_flatMap.mpr ⟨g, hg, by rw [hf]; simp⟩
  | cons c0 cs =>
    refine ⟨MergedRow.mk g.date g.state g.plant g.region g.value (some c0.value), ?_, rfl, rfl⟩
    refine List.mem_flatMap.mpr ⟨g, hg, ?_⟩
    rw [hf]
    simp

/-- C3: semantics of the merged export.  For a (date, plant) key carried by
some coal row, and carried with a single value v (the claim's definite "the
coal set's value for that key"), every merged row with that key has exported
coal cell v; for a key no coal row carries, every merged row with that key
has an empty exported coal cell; and every generation row gives rise to at
least one merged row with its key (left join keeps all generation rows). -/
theorem merged_coal_semantics (gen coal : List FinalRow) (d p : String) :
    ((∃ c ∈ coal, c.date = d ∧ c.plant = p) →
      ∀ v, (∀ c ∈ coal, c.date = d → c.plant = p → c.value = v) →
        ∀ m ∈ mergeLeft gen coal, m.date = d → m.plant = p → mergedCoalCell m = v) ∧
    ((∀ c ∈ coal, ¬(c.date = d ∧ c.plant = p)) →
      ∀ m ∈ mergeLeft gen coal, m.date = d → m.plant = p → mergedCoalCell m = "") ∧
    (∀ g ∈ gen, ∃ m ∈ mergeLeft gen coal, m.date = g.date ∧ m.plant = g.plant) := by
  refine ⟨?_, ?_, ?_⟩
  · rintro ⟨c, hc, hcd, hcp⟩ v hv m hm hmd hmp
    obtain ⟨g, hg, hgd, hgp, _, hcase⟩ := mem_mergeLeft hm
    rcases hcase with ⟨_, hnone⟩ | ⟨c2, hc2, hc2d, hc2p, hval⟩
    · exact absurd ⟨hgd ▸ hmd ▸ hcd, hgp ▸ hmp ▸ hcp⟩ (hnone c hc)
    · rw [mergedCoalCell, hval]
      exact hv c2 hc2 (by rw [hc2d, ← hgd, hmd]) (by rw [hc2p, ← hgp, hmp])
  · intro hempty m hm hmd hmp
    obtain ⟨g, hg, hgd, hgp, _, hcase⟩ := mem_mergeLeft hm
    rcases hcase with ⟨hnone, _⟩ | ⟨c2, hc2, hc2d, hc2p, _⟩
    · rw [mergedCoalCell, hnone]
      rfl
    · exact absurd ⟨by rw [hc2d, ← hgd, hmd], by rw [hc2p, ← hgp, hmp]⟩ (hempty c2 hc2)
  · intro g hg
    exact mergeLeft_total hg

/-- Witness for the C3 theorem: one generation row with key
(01/06/2024, PANIPAT TPS) joined against one coal row with the same key and
value 2.5000, and against an empty coal set. -/
theorem merged_coal_semantics_witness :
    (∀ m ∈ mergeLeft
        [FinalRow.mk "01/06/2024" "Haryana" "PANIPAT TPS" "NORTHERN" "1.0000"]
        [FinalRow.mk "01/06/2024" "Haryana" "PANIPAT TPS" "NORTHERN" "2.5000"],
      m.date = "01/06/2024" → m.plant = "PANIPAT TPS" → mergedCoalCell m = "2.5000") ∧
    (∀ m ∈ mergeLeft
        [FinalRow.mk "01/06/2024" "Haryana" "PANIPAT TPS" "NORTHERN" "1.0000"]
        ([] : List FinalRow),
      m.date = "01/06/2024" → m.plant = "PANIPAT TPS" → mergedCoalCell m = "") :=
  ⟨(merged_coal_semantics
      [FinalRow.mk "01/06/2024" "Haryana" "PANIPAT TPS" "NORTHERN" "1.0000"]
      [FinalRow.mk "01/06/2024" "Haryana" "PANIPAT TPS" "NORTHERN" "2.5000"]
      "01/06/2024" "PANIPAT TPS").1
      ⟨FinalRow.mk "01/06/2024" "Haryana" "PANIPAT TPS" "NORTHERN" "2.5000",
        List.mem_singleton_self _, rfl, rfl⟩
      "2.5000" (by decide),
    (merged_coal_semantics
      [FinalRow.mk "01/06/2024" "Haryana" "PANIPAT TPS" "NORTHERN" "1.0000"]
      [] "01/06/2024" "PANIPAT TPS").2.1 (by decide)⟩

theorem mem_registryFilter {rows : List FinalRow} {r : FinalRow}
    (h : r ∈ registryFilter rows) : r.plant ∈ allowed_plants := by
  rw [registryFilter] at h
  have hc := (List.mem_filter.mp h).2
  simpa using hc

/-- C2: every row of the two final displayed tables and of the merged export
names a plant that is a key of the registry `plant_info`: both streams pass
through the registry filter before presentation, and the merged export is
built from the filtered generation stream, so records built for plants
outside the registry are dropped before presentation. -/
theorem run_pipeline_registry (mn : String) (fy : Nat) (selGen selCoal : List String)
    (genFiles coalFiles : List SFile)
    (genT coalT : List FinalRow) (mergedT : List MergedRow)
    (h : run_pipeline mn fy selGen selCoal genFiles coalFiles =
      .ok (genT, coalT, mergedT)) :
    (∀ r ∈ genT, r.plant ∈ allowed_plants) ∧
    (∀ r ∈ coalT, r.plant ∈ allowed_plants) ∧
    (∀ m ∈ mergedT, m.plant ∈ allowed_plants) := by
  simp only [run_pipeline] at h
  split at h
  · exact absurd h (by simp)
  · split at h
    · exact absurd h (by simp)
    · simp only [Except.ok.injEq, Prod.mk.injEq] at h
      obtain ⟨hgen, hcoal, hmerged⟩ := h
      subst hgen
      subst hcoal
      subst hmerged
      refine ⟨?_, ?_, ?_⟩
      · intro r hr
        exact mem_registryFilter hr
      · intro r hr
        exact mem_registryFilter hr
      · intro m hm
        obtain ⟨g, hg, _, hplant, _⟩ := mem_mergeLeft hm
        rw [hplant]
        exact mem_registryFilter hg

/-- Witness for the C2 theorem: a one-plant, one-file run over a readable
but empty generation file. -/
theorem run_pipeline_registry_witness :
    run_pipeline "June" 2024 ["PANIPAT TPS"] [] [fileEmptyOk] [] =
      Except.ok
        ([FinalRow.mk "blank" "Haryana" "PANIPAT TPS" "NORTHERN" ""], [],
          [MergedRow.mk "blank" "Haryana" "PANIPAT TPS" "NORTHERN" "" none]) ∧
    ((∀ r ∈ [FinalRow.mk "blank" "Haryana" "PANIPAT TPS" "NORTHERN" ""],
        r.plant ∈ allowed_plants) ∧
      (∀ r ∈ ([] : List FinalRow), r.plant ∈ allowed_plants) ∧
      (∀ m ∈ [MergedRow.mk "blank" "Haryana" "PANIPAT TPS" "NORTHERN" "" none],
        m.plant ∈ allowed_plants)) :=
  ⟨by with_unfolding_all rfl,
    run_pipeline_registry "June" 2024 ["PANIPAT TPS"] [] [fileEmptyOk] [] _ _ _
      (by with_unfolding_all rfl)⟩

end Carbon
